import Mathlib

/-
Verification of the ifarchive-ifmap-py index generator (ifmap.py).

Shallow embedding: the relevant Python functions are translated into Lean
definitions. Strings are handled through character lists where the Python
code does character-level work, since the Lean string primitives built on
byte positions do not reduce in the kernel. Machine integers are modeled as
Int (timestamps and sizes never overflow in the Python code, which has
arbitrary precision integers anyway). Fallible code returns Except PyErr.
External collaborators (Markdown conversion, the jinja backend, the OS) are
modeled by parameters or identity, as the specification declares them out of
scope; each such spot is marked in a doc comment.
-/

/-- Python runtime exceptions that the embedded code can raise. -/
inductive PyErr where
  | indexError
  | typeError
  | nameError
  | attributeError
deriving DecidableEq

/-- Python str.rstrip on a character list (trailing whitespace removed). -/
def rstripL (s : List Char) : List Char :=
  (s.reverse.dropWhile Char.isWhitespace).reverse

/-- Python str.strip on a character list. -/
def stripL (s : List Char) : List Char :=
  ((s.dropWhile Char.isWhitespace).reverse.dropWhile Char.isWhitespace).reverse

/-- Association list lookup, modeling Python dict indexing by string key. -/
def lookupA {α : Type} (l : List (String × α)) (k : String) : Option α :=
  match l.find? (fun p => p.1 == k) with
  | some p => some p.2
  | none => none

/-- Association list update, modeling Python dict assignment: replace the
value in place when the key is present, append at the end otherwise
(Python dicts preserve insertion order). -/
def updateA {α : Type} (l : List (String × α)) (k : String) (v : α) : List (String × α) :=
  match l with
  | [] => [(k, v)]
  | p :: rest => if p.1 == k then (k, v) :: rest else p :: updateA rest k v

/- ## Template engine (ifmap.py lines 45-275) -/

/-- TemplateTag: one element of a compiled template. The type field of the
Python class is folded into the constructors; the args field of a repeat tag
(the relative offset of its matching endrepeat tag, set by the matching pass
in Template.init) is the Option Nat argument. -/
inductive Tag where
  | text (s : String)
  | var (name : String) (filters : List String)
  | tif (name : String)
  | telse
  | endif
  | rep (name : String) (args : Option Nat)
  | endrep
deriving DecidableEq

/-- Values a template binding map can hold. Python callables take the output
stream and write to it; a callable is modeled by the text it writes. -/
inductive Value where
  | vstr (s : String)
  | vint (n : Int)
  | vbool (b : Bool)
  | vfunc (out : String)
  | vlist (items : List Value)
  | vdict (items : List (String × Value))

/-- Binding map (Python dict or ChainMap; a ChainMap overlay is modeled by
prepending bindings, matching its first-match lookup rule). -/
abbrev VMap := List (String × Value)

/-- map.get on a binding map; an empty map behaves like the Python
`if map:` guard, both yield None. -/
def vget (m : VMap) (k : String) : Option Value :=
  match m.find? (fun p => p.1 == k) with
  | some p => some p.2
  | none => none

/-- The global filter table (Template.filters). -/
abbrev Filters := List (String × (String → String))

/-- Python bool() applied to an optional bound value (None when absent). -/
def truthy : Option Value → Bool
  | none => false
  | some (.vstr s) => s != ""
  | some (.vint n) => n != 0
  | some (.vbool b) => b
  | some (.vfunc _) => true
  | some (.vlist l) => !l.isEmpty
  | some (.vdict l) => !l.isEmpty

/-- Python str() on the printable value types (str, int, bool). The other
constructors never reach this function in subst. -/
def pyStr : Value → String
  | .vstr s => s
  | .vint n => toString n
  | .vbool b => if b then "True" else "False"
  | .vfunc _ => ""
  | .vlist _ => ""
  | .vdict _ => ""

/-- Python val.split on the pipe character. -/
def splitPipe : List Char → List (List Char)
  | [] => [[]]
  | '|' :: rest => [] :: splitPipe rest
  | c :: rest =>
    match splitPipe rest with
    | [] => [[c]]
    | p :: ps => (c :: p) :: ps

/-- Classification of the text found between braces (Template.init
lines 128-151). On a value made only of pipes and blanks Python raises
IndexError while compiling; that corner is unreachable for the templates
considered here and is classified as an empty variable. -/
def classifyTag (val : String) : Tag :=
  if val = ":" then .telse
  else if val = "/" then .endif
  else if val = "\x7b" then .text "\x7b"
  else if val.data.head? = some '?' then .tif (val.data.drop 1).asString
  else if val.data.head? = some '[' then .rep (val.data.drop 1).asString none
  else if val = "]" then .endrep
  else if val = "" then .text ""
  else if val.data.contains '|' then
    match ((splitPipe val.data).map (fun p => (stripL p).asString)).filter (fun e => e != "") with
    | [] => .var "" []
    | name :: args => .var name args
  else .var val []

/-- The tag_pattern scan loop of Template.init. The regex finds the earliest
open brace that is followed by a close brace; the characters between them
(which may include further open braces) form the tag value. Text before the
match becomes a plain text tag. The fuel argument only bounds the recursion;
length plus one always suffices because each step consumes a character. -/
def tokenizeGo : Nat → List Char → List Char → List Tag
  | _, acc, [] => if acc.isEmpty then [] else [.text acc.reverse.asString]
  | 0, acc, s => [.text (acc.reverse ++ s).asString]
  | fuel+1, acc, c :: rest =>
    if c = '{' && rest.contains '}' then
      let val := rest.takeWhile (fun x => x != '}')
      let rest2 := (rest.dropWhile (fun x => x != '}')).drop 1
      (if acc.isEmpty then [] else [.text acc.reverse.asString])
        ++ (classifyTag val.asString :: tokenizeGo fuel [] rest2)
    else tokenizeGo fuel (c :: acc) rest

/-- The repeat-matching pass of Template.init (lines 153-165): a stack of
open repeat positions; each endrepeat pops one and records the relative
offset. Unmatched tags are reported (diagnostics not collected here) and
keep args unset. -/
def matchRepeatsGo : Nat → List Nat → List (Nat × Nat) → List Tag → List (Nat × Nat)
  | _, _, acc, [] => acc
  | i, stack, acc, .rep _ _ :: rest => matchRepeatsGo (i+1) (i :: stack) acc rest
  | i, stack, acc, .endrep :: rest =>
    match stack with
    | [] => matchRepeatsGo (i+1) [] acc rest
    | v :: st => matchRepeatsGo (i+1) st ((v, i - v) :: acc) rest
  | i, stack, acc, _ :: rest => matchRepeatsGo (i+1) stack acc rest

/-- Write the recorded offsets back into the repeat tags. -/
def applyRepeatArgs (upd : List (Nat × Nat)) : Nat → List Tag → List Tag
  | _, [] => []
  | i, .rep n a :: rest =>
    (match upd.find? (fun p => p.1 == i) with
     | some p => Tag.rep n (some p.2)
     | none => Tag.rep n a) :: applyRepeatArgs upd (i+1) rest
  | i, t :: rest => t :: applyRepeatArgs upd (i+1) rest

/-- Template.init on a string body: tokenize, then match repeat pairs. -/
def templateParse (body : String) : List Tag :=
  let ls := tokenizeGo (body.data.length + 1) [] body.data
  applyRepeatArgs (matchRepeatsGo 0 [] [] ls) 0 ls

/-- Prepend output text and diagnostics to a rendering result. -/
def emitRes (s : String) (msgs : List String) :
    Except PyErr (String × List String) → Except PyErr (String × List String)
  | .error e => .error e
  | .ok (o, p) => .ok (s ++ o, msgs ++ p)

/-- Sequence the per-iteration renderings of a repetition block,
concatenating output and diagnostics; the first exception aborts. -/
def seqRuns : List (Except PyErr (String × List String)) → Except PyErr (String × List String)
  | [] => .ok ("", [])
  | x :: xs =>
    match x with
    | .error e => .error e
    | .ok (o, p) =>
      match seqRuns xs with
      | .error e => .error e
      | .ok (o2, p2) => .ok (o ++ o2, p ++ p2)

/-- The filter pipeline of a var tag (lines 265-271): unknown filter names
produce a diagnostic and leave the value unchanged. -/
def runFilters (flt : Filters) (fargs : List String) (res : String) : String × List String :=
  fargs.foldl (fun acc fname =>
    match flt.find? (fun p => p.1 == fname) with
    | some p => (p.2 acc.1, acc.2)
    | none => (acc.1, acc.2 ++ ["Problem: undefined filter: " ++ fname])) (res, [])

/-- Per-iteration binding overlays for a list repetition (lines 225-231):
name:value is the element, name:first is true on the first iteration. -/
def listOverlays (name : String) : Bool → List Value → List VMap
  | _, [] => []
  | first, v :: vs =>
    [(name ++ ":value", v), (name ++ ":first", .vbool first)] :: listOverlays name false vs

/-- Per-iteration binding overlays for a mapping repetition (lines 235-243). -/
def dictOverlays (name : String) : Bool → List (String × Value) → List VMap
  | _, [] => []
  | first, kv :: vs =>
    [(name ++ ":key", .vstr kv.1), (name ++ ":value", kv.2), (name ++ ":first", .vbool first)]
      :: dictOverlays name false vs

/-- Combine two rendering results in order, propagating the first
exception. -/
def combineRes (x y : Except PyErr (String × List String)) :
    Except PyErr (String × List String) :=
  match x with
  | .error e => .error e
  | .ok r1 =>
    match y with
    | .error e => .error e
    | .ok r2 => .ok (r1.1 ++ r2.1, r1.2 ++ r2.2)

/-- Template.subst (lines 193-275). The active argument is the Python
activelist with its top at the head; reading the top or popping on an empty
list is the IndexError the Python code would raise, and reading args of an
unmatched repeat tag whose bound value is a collection is its TypeError.
The result carries the rendered output and the printed problem diagnostics.
A repetition block recursively renders the slice between the repeat tag and
its matching endrepeat (the recorded offset is relative, so it stays valid
inside a slice); the main walk then continues over those same tags with a
false frame pushed, exactly as the Python loop does. -/
def substRun (flt : Filters) (ls : List Tag) (map : VMap) (active : List Bool) :
    Except PyErr (String × List String) :=
  match ls with
  | [] => .ok ("", [])
  | tag :: rest =>
    match active with
    | [] => .error .indexError
    | a :: arest =>
      match tag with
      | .text s =>
        if a then emitRes s [] (substRun flt rest map active)
        else substRun flt rest map active
      | .var name fargs =>
        if !a then substRun flt rest map active
        else
          match vget map name with
          | none =>
            emitRes "[UNKNOWN]" ["Problem: undefined brace-tag: " ++ name]
              (substRun flt rest map active)
          | some (.vfunc out) =>
            emitRes out
              (if fargs.isEmpty then [] else ["Problem: cannot use filters with a callable value"])
              (substRun flt rest map active)
          | some (.vstr s) =>
            let r := runFilters flt fargs (pyStr (.vstr s))
            emitRes r.1 r.2 (substRun flt rest map active)
          | some (.vint n) =>
            let r := runFilters flt fargs (pyStr (.vint n))
            emitRes r.1 r.2 (substRun flt rest map active)
          | some (.vbool b) =>
            let r := runFilters flt fargs (pyStr (.vbool b))
            emitRes r.1 r.2 (substRun flt rest map active)
          | some (.vlist _) =>
            emitRes "[NOT-PRINTABLE]" ["Problem: unprintable brace-tag type: " ++ name]
              (substRun flt rest map active)
          | some (.vdict _) =>
            emitRes "[NOT-PRINTABLE]" ["Problem: unprintable brace-tag type: " ++ name]
              (substRun flt rest map active)
      | .tif name =>
        if !a then substRun flt rest map (false :: active)
        else substRun flt rest map (truthy (vget map name) :: active)
      | .telse =>
        match arest with
        | [] => substRun flt rest map [!a]
        | b :: _ => substRun flt rest map ((if b then !a else a) :: arest)
      | .endif => substRun flt rest map arest
      | .endrep => substRun flt rest map arest
      | .rep name oargs =>
        if !a then substRun flt rest map (false :: active)
        else
          match vget map name with
          | none =>
            emitRes "[UNKNOWN]" ["Problem: undefined brace-tag: " ++ name]
              (substRun flt rest map (false :: active))
          | some (.vlist items) =>
            match oargs with
            | none => .error .typeError
            | some k =>
              combineRes
                (seqRuns ((listOverlays name true items).map
                  (fun ov => substRun flt (rest.take (k - 1)) (ov ++ map) [true])))
                (substRun flt rest map (false :: active))
          | some (.vdict pairs) =>
            match oargs with
            | none => .error .typeError
            | some k =>
              combineRes
                (seqRuns ((dictOverlays name true pairs).map
                  (fun ov => substRun flt (rest.take (k - 1)) (ov ++ map) [true])))
                (substRun flt rest map (false :: active))
          | some _ =>
            emitRes "[NOT-REPEATABLE]" ["Problem: unrepeatable tag type: " ++ name]
              (substRun flt rest map (false :: active))
termination_by ls.length
decreasing_by
  all_goals simp [List.length_take]

/-- Nesting-depth check for a tag list against a starting activelist depth:
every tag of the Python loop first reads or pops the top of the activelist,
so the depth must be at least one at each tag; conditionals and repeats push
one frame, the closing tags pop one. -/
def depthOk : Nat → List Tag → Bool
  | _, [] => true
  | d, tag :: rest =>
    decide (1 ≤ d) &&
    (match tag with
     | .tif _ => depthOk (d+1) rest
     | .rep _ _ => depthOk (d+1) rest
     | .endif => depthOk (d-1) rest
     | .endrep => depthOk (d-1) rest
     | _ => depthOk d rest)

/-- Well-formedness of the repeat structure: every repeat tag carries its
matched offset, and every repetition body is itself depth-safe and
well-formed (bodies are rendered recursively with a fresh activelist). -/
def wfT : List Tag → Bool
  | [] => true
  | .rep _ none :: _ => false
  | .rep _ (some k) :: rest =>
    (depthOk 1 (rest.take (k-1)) && wfT (rest.take (k-1))) && wfT rest
  | _ :: rest => wfT rest
termination_by ls => ls.length
decreasing_by
  all_goals simp [List.length_take]

/-- Success test for an embedded computation. -/
def isOkE {α : Type} : Except PyErr α → Bool
  | .ok _ => true
  | .error _ => false

/- ## Archive tree data model (ifmap.py lines 598-762) -/

/-- File (lines 690-762): one entry in a directory, with the submap keys the
later passes consult modeled as fields. The islink field doubles as the
presence of the islink submap key, which the constructor sets exactly when
the entry is created as a link. The metadata mapping is filled by the
external Markdown meta extension in the Python code and is therefore taken
as given data here. -/
structure AFile where
  name : String
  dirname : String
  path : String
  isdir : Bool := false
  islink : Bool := false
  inmaster : Bool := false
  intree : Bool := false
  desc : Option String := none
  hasdesc : Bool := false
  linkdir : Option String := none
  date : Option Int := none
  metadata : List (String × List String) := []
deriving DecidableEq

/-- File.isdeep: set at construction when the name holds a slash. -/
def AFile.isdeep (f : AFile) : Bool := f.name.data.contains '/'

/-- File.init: path is the parent directory name joined with the name. -/
def mkFile (filename dirname : String) (isdir islink : Bool) : AFile :=
  { name := filename, dirname := dirname, path := dirname ++ "/" ++ filename,
    isdir := isdir, islink := islink }

/-- Split a character list at the last slash; none when no slash occurs. -/
def rsplitSlash (s : List Char) : Option (List Char) × List Char :=
  let afterR := s.reverse.takeWhile (fun c => c != '/')
  match s.reverse.dropWhile (fun c => c != '/') with
  | [] => (none, s)
  | _ :: beforeR => (some beforeR.reverse, afterR.reverse)

/-- Python str.rpartition on the slash, restricted to the two components the
deep-entry code uses (the text before and after the last slash). -/
def rpartitionSlash (s : List Char) : List Char × List Char :=
  match rsplitSlash s with
  | (none, b) => ([], b)
  | (some a, b) => (a, b)

/-- Directory (lines 614-658): one directory of the big map, with parent
name and bare name derived from the last slash as in Directory.init, and
the submap keys the subdirectory pass writes modeled as fields. -/
structure ADir where
  dir : String
  parentdirname : Option String := none
  barename : String := ""
  files : List (String × AFile) := []
  subdirs : List String := []
  parentlinked : Bool := false
  header : Option String := none
  hasdesc : Bool := false
  hasparentdesc : Bool := false
  parentdesc : Option String := none
deriving DecidableEq

/-- Directory.init. -/
def mkDirectory (dirname : String) : ADir :=
  match rsplitSlash dirname.data with
  | (none, _) => { dir := dirname, parentdirname := none, barename := dirname }
  | (some p, b) => { dir := dirname, parentdirname := some p.asString, barename := b.asString }

/- ## Master-Index parser (ifmap.py lines 764-910) -/

/-- ROOTNAME. -/
def rootChars : List Char := "if-archive".data

/-- dirname_pattern: a hash, optional spaces, a group starting with the root
name and running (greedily) up to a final colon at the end of the line. The
group has at least the root name followed by the colon, so no separate
length check is needed. -/
def parseDirLine (ln : List Char) : Option String :=
  match ln with
  | '#' :: rest =>
    let rest2 := rest.dropWhile (fun c => c == ' ')
    if rootChars.isPrefixOf rest2 && rest2.getLast? = some ':' then
      some rest2.dropLast.asString
    else none
  | _ => none

/-- filename_pattern: two hashes followed by one character that is not a
hash (the line must have at least three characters). -/
def filenameLine (ln : List Char) : Bool :=
  match ln with
  | '#' :: '#' :: c :: _ => c != '#'
  | _ => false

/-- The separator characters of dashline_pattern. -/
def dashChar (c : Char) : Bool := c == '-' || c == '+' || c == '=' || c == '#' || c == '*'

/-- The trailing character class of dashline_pattern. Inside the class the
dash forms a range from space to plus, so the class is that range plus the
equals sign (hash and star already sit inside the range); the literal dash
itself is not a member. -/
def dashTrailChar (c : Char) : Bool := (' ' ≤ c && c ≤ '+') || c == '='

/-- dashline_pattern: leading spaces, one or more separator characters, then
only trailing-class characters to the end of the line. The greedy match is
equivalent to this dropWhile form: shortening the separator run can only
move a dash into the trailing part, where it is not accepted. -/
def dashline (ln : List Char) : Bool :=
  let t := ln.dropWhile (fun c => c == ' ')
  let u := t.dropWhile dashChar
  (t.length != u.length) && u.all dashTrailChar

/-- Join description lines with newlines, as the Python join call does. -/
def joinLines : List String → String
  | [] => ""
  | [s] => s
  | s :: rest => s ++ "\n" ++ joinLines rest

/-- File.complete (lines 731-749): store the accumulated description text.
The Markdown conversion and metadata extraction are an external service
(specification section 1), so the description is kept as the raw joined
text and the nonwhite test is applied to it directly. -/
def fileComplete (f : AFile) (desclines : List String) : AFile :=
  if desclines.isEmpty then f
  else
    let filestr := joinLines desclines
    { f with desc := some filestr,
             hasdesc := filestr.data.any (fun c => !c.isWhitespace) }

/-- Parser state of the parse_master_index loop: the archive tree dirmap,
the current directory and file (the Python local variables hold live
objects; here they hold the keys of those objects), the description and
header accumulators, and the stderr diagnostics in order. -/
structure MState where
  dirmap : List (String × ADir)
  cur : Option String := none
  curfile : Option String := none
  filedesclines : List String := []
  inheader : Bool := true
  headerlines : List String := []
  errors : List String := []
deriving DecidableEq

/-- Finish the file entry in progress, if any (file.complete plus clearing
the file variable). -/
def finishFile (st : MState) : MState :=
  match st.cur, st.curfile with
  | some dname, some fname =>
    (match lookupA st.dirmap dname with
     | none => { st with curfile := none }
     | some dir =>
       match lookupA dir.files fname with
       | none => { st with curfile := none }
       | some f =>
         { st with
             dirmap := updateA st.dirmap dname
               { dir with files := updateA dir.files fname (fileComplete f st.filedesclines) },
             curfile := none })
  | _, _ => { st with curfile := none }

/-- Finish the directory block in progress (lines 791-825): complete the
open file entry, then assemble the header text, right-stranded to exactly
one trailing newline, and record whether any header is present. The
Markdown and metadata handling of the header is external and the header is
stored as the raw text. -/
def finishDir (st : MState) : MState :=
  match st.cur with
  | none => st
  | some dname =>
    let st := finishFile st
    match lookupA st.dirmap dname with
    | none => { st with cur := none }
    | some dir =>
      let headerstr := (rstripL (joinLines st.headerlines).data).asString ++ "\n"
      let anyheader := headerstr.data.any (fun c => !c.isWhitespace)
      let dir := { dir with hasdesc := anyheader,
                            header := if anyheader then some headerstr else dir.header }
      { st with dirmap := updateA st.dirmap dname dir, cur := none }

/-- Begin a directory block (lines 827-838): finish the previous block and
get or add the named directory (dict insertion appends at the end). -/
def startDir (st : MState) (dname : String) : MState :=
  let st := finishDir st
  let dirmap :=
    match lookupA st.dirmap dname with
    | some _ => st.dirmap
    | none => st.dirmap ++ [(dname, mkDirectory dname)]
  { st with dirmap := dirmap, cur := some dname, curfile := none,
            filedesclines := [], inheader := true, headerlines := [] }

/-- Diagnostic for a deep entry whose target directory is missing. -/
def compoundBadDirMsg (filename dname : String) : String :=
  "Compound file entry refers to a bad directory: \"" ++ filename ++ "\" in " ++ dname

/-- Diagnostic for a deep entry whose target file is missing. -/
def compoundBadFileMsg (filename dname : String) : String :=
  "Compound file entry refers to a bad file: \"" ++ filename ++ "\" in " ++ dname

/-- Diagnostic for a duplicate deep entry. -/
def compoundTwiceMsg (filename dname : String) : String :=
  "Compound file entry appears twice: \"" ++ filename ++ "\" in " ++ dname

/-- Start of a new file block (lines 861-904), after the previous file has
been completed. A plain name is fetched or created in the current directory
and marked as found in the master file; a name with a slash is a deep
reference whose target directory and file must already exist, whose
duplicate occurrence is a reported error that creates no second entry, and
whose fresh entry copies the directory and link flags of its target (the
target, not the new entry, is marked as found in the master file). On the
duplicate-error path the Python file variable has already been rebound to
the existing entry, so later description lines still accumulate against it. -/
def startFileBlock (st : MState) (dname : String) (dir : ADir) (filename : String) : MState :=
  if !(filename.data.contains '/') then
    match lookupA dir.files filename with
    | some f =>
      { st with
          dirmap := updateA st.dirmap dname
            { dir with files := updateA dir.files filename { f with inmaster := true } },
          curfile := some filename, filedesclines := [] }
    | none =>
      let f := { mkFile filename dname false false with inmaster := true }
      { st with
          dirmap := updateA st.dirmap dname
            { dir with files := dir.files ++ [(filename, f)] },
          curfile := some filename, filedesclines := [] }
  else
    let pq := rpartitionSlash filename.data
    let reldir := dname ++ "/" ++ pq.1.asString
    let relname := pq.2.asString
    match lookupA st.dirmap reldir with
    | none =>
      { st with errors := st.errors ++ [compoundBadDirMsg filename dname],
                curfile := none, filedesclines := [] }
    | some rel =>
      match lookupA rel.files relname with
      | none =>
        { st with errors := st.errors ++ [compoundBadFileMsg filename dname],
                  curfile := none, filedesclines := [] }
      | some rf =>
        let st := { st with
          dirmap := updateA st.dirmap reldir
            { rel with files := updateA rel.files relname { rf with inmaster := true } } }
        match lookupA st.dirmap dname with
        | none => st
        | some dir2 =>
          match lookupA dir2.files filename with
          | some _ =>
            { st with errors := st.errors ++ [compoundTwiceMsg filename dname],
                      curfile := some filename, filedesclines := [] }
          | none =>
            let f := { mkFile filename dname rf.isdir rf.islink with
                       linkdir := if rf.isdir then some (dname ++ "/" ++ filename) else none }
            { st with
                dirmap := updateA st.dirmap dname
                  { dir2 with files := dir2.files ++ [(filename, f)] },
                curfile := some filename, filedesclines := [] }

/-- One input line of the parse_master_index loop (lines 781-907): strip the
right side, open a new directory block on a directory marker, otherwise do
nothing outside a block, skip separator lines, accumulate header lines until
the first entry marker, then open entry blocks and accumulate description
lines. -/
def masterStep (st : MState) (line : String) : MState :=
  let ln := rstripL line.data
  match parseDirLine ln with
  | some dname => startDir st dname
  | none =>
    match st.cur with
    | none => st
    | some dname =>
      if dashline ln then st
      else if st.inheader && !(filenameLine ln) then
        { st with headerlines := st.headerlines ++ [ln.asString] }
      else
        let st := { st with inheader := false }
        if filenameLine ln then
          let st := finishFile st
          match lookupA st.dirmap dname with
          | none => st
          | some dir => startFileBlock st dname dir (stripL (ln.drop 2)).asString
        else
          { st with filedesclines := st.filedesclines ++ [ln.asString] }

/-- parse_master_index over the list of input lines, starting from a given
archive tree; the end of the file closes the last open blocks with the same
finalization as a directory marker. -/
def parse_master_index (dirmap0 : List (String × ADir)) (lines : List String) : MState :=
  finishDir (lines.foldl masterStep { dirmap := dirmap0 })

/- ## Reconciliation checks (ifmap.py lines 356-366 and 1028-1043) -/

/-- NoIndexEntry.check: true when some listed value is a prefix of the
path. -/
def noIndexCheck (ls : List String) (path : String) : Bool :=
  ls.any (fun v => v.data.isPrefixOf path.data)

/-- Message for an index entry with no file; a deep name is parenthesized. -/
def missingMsg (d : ADir) (f : AFile) : String :=
  "Index entry without file: " ++ d.dir ++ "/" ++
    (if f.isdeep then "(" ++ f.name ++ ")" else f.name)

/-- Message for a file with no index entry. -/
def orphanMsg (f : AFile) : String := "File without index entry: " ++ f.path

/-- The first report condition of check_missing_files (line 1036): found in
the master file, not in the tree, no linkdir key and no islink key. -/
def fileMissingCond (f : AFile) : Bool :=
  f.inmaster && !f.intree && f.linkdir.isNone && !f.islink

/-- The second report condition (lines 1041-1042): found in the tree, not in
the master file, no linkdir key, and not matched by the no-index-entry
list. -/
def fileOrphanCond (noindex : List String) (f : AFile) : Bool :=
  f.intree && !f.inmaster && f.linkdir.isNone && !noIndexCheck noindex f.path

/-- Inner loop of check_missing_files over the files of one directory,
appending each report to the respective stderr stream list. -/
def checkDirStep (noindex : List String) (acc : List String × List String) (d : ADir) :
    List String × List String :=
  d.files.foldl (fun acc2 p =>
    let acc3 := if fileMissingCond p.2 then (acc2.1 ++ [missingMsg d p.2], acc2.2) else acc2
    if fileOrphanCond noindex p.2 then (acc3.1, acc3.2 ++ [orphanMsg p.2]) else acc3) acc

/-- check_missing_files over the directory map values, producing the list of
missing-file reports and the list of orphan-file reports in order. -/
def check_missing_files (noindex : List String) (dirs : List ADir) :
    List String × List String :=
  dirs.foldl (checkDirStep noindex) ([], [])

/-- Orphan report condition as claim C5 words it: entries found on disk but
not in the description that are not links, with the ignore-list prefix test.
Stated from the claim text for comparison with the code condition. -/
def claimOrphanCond (noindex : List String) (f : AFile) : Bool :=
  f.intree && !f.inmaster && !f.islink && !noIndexCheck noindex f.path

/- ## Subdirectory-linking pass (ifmap.py lines 1011-1025) -/

/-- Diagnostic for a directory whose parent is missing from the map (the
Python message has an apostrophe that is dropped here). -/
def parentMissingMsg (dname : String) : String :=
  "Directory parent is not listed: " ++ dname ++ "\n"

/-- Link one directory to its parent: skip the root (no parent name, and a
falsy empty name is also skipped), report and leave unlinked when the
parent is absent, otherwise record the link and the subdirectory entry and
then read the parent entry for the bare name. That read dereferences the
result of dict.get without a None check, so a parent directory with no
entry under the bare name raises AttributeError. -/
def subdirLink (dm : List (String × ADir)) (k : String) :
    Except PyErr (List (String × ADir) × Option String) :=
  match lookupA dm k with
  | none => .ok (dm, none)
  | some dir =>
    match dir.parentdirname with
    | none => .ok (dm, none)
    | some pd =>
      if pd = "" then .ok (dm, none)
      else
        match lookupA dm pd with
        | none => .ok (dm, some (parentMissingMsg dir.dir))
        | some dir2 =>
          let dm := updateA dm k { dir with parentlinked := true }
          let dm := updateA dm pd { dir2 with subdirs := dir2.subdirs ++ [dir.dir] }
          match lookupA dir2.files dir.barename with
          | none => .error .attributeError
          | some fdir =>
            if fdir.hasdesc then
              match lookupA dm k with
              | none => .ok (dm, none)
              | some dirX =>
                .ok (updateA dm k { dirX with hasparentdesc := true, parentdesc := fdir.desc }, none)
            else .ok (dm, none)

/-- Fold of the subdirectory pass over the directory keys in map order. -/
def subdirPassGo (dm : List (String × ADir)) (errs : List String) :
    List String → Except PyErr (List (String × ADir) × List String)
  | [] => .ok (dm, errs)
  | k :: rest =>
    match subdirLink dm k with
    | .error e => .error e
    | .ok (dm2, none) => subdirPassGo dm2 errs rest
    | .ok (dm2, some m) => subdirPassGo dm2 (errs ++ [m]) rest

/-- The subdirectory-linking loop of construct_archtree. -/
def construct_subdir_pass (dm : List (String × ADir)) :
    Except PyErr (List (String × ADir) × List String) :=
  subdirPassGo dm [] (dm.map (fun p => p.1))

/- ## Unbox-link flag (ifmap.py lines 660-661 and 1195-1224) -/

/-- File.getmetadata_string: the first value under the key, none when the
key is absent or its list is empty. -/
def getmetadata_string (f : AFile) (key : String) : Option String :=
  match lookupA f.metadata key with
  | some (v :: _) => some v
  | _ => none

/-- unbox_suffix_pattern: a case-insensitive search for one of the archive
suffixes at the end of the name. -/
def unbox_suffix_match (name : String) : Bool :=
  let ln := name.data.map Char.toLower
  (".tar.gz".data.isSuffixOf ln) || (".tgz".data.isSuffixOf ln) ||
    (".tar.z".data.isSuffixOf ln) || (".zip".data.isSuffixOf ln)

/-- The unbox-link computation of prepare_filelist (lines 1205-1219): a
truthy unbox-link metadata value decides the flag by comparison with true,
otherwise membership of the parent directory in the no-unbox-link list
suppresses it, otherwise the suffix heuristic applies. The final
unbox-block test assigns the bare lowercase name false, which is an
undefined Python name, so reaching that branch raises NameError. The
returned flag records whether the hasunboxlink key is set. -/
def prepare_unboxlink (nounboxset : List String) (f : AFile) : Except PyErr Bool :=
  let dflt := if nounboxset.contains f.dirname then false else unbox_suffix_match f.name
  let flag :=
    match getmetadata_string f "unbox-link" with
    | some v => if v = "" then dflt else decide (v.data.map Char.toLower = "true".data)
    | none => dflt
  if getmetadata_string f "unbox-block" = some "true" then .error .nameError
  else .ok flag

/- ## FileHasher (ifmap.py lines 368-437) -/

/-- FileHasher state: the in-memory cache mapping filenames to size,
timestamp and the two digests, the lines appended to the cache file during
the run, and a count of calculate_hashes invocations. -/
structure HState where
  cache : List (String × (Int × Int × String × String))
  lines : List String := []
  computes : Nat := 0
deriving DecidableEq

/-- One appended cache-file line (tab separated, newline terminated). -/
def cacheLine (size timestamp : Int) (md5 sha512 filename : String) : String :=
  toString size ++ "\t" ++ toString timestamp ++ "\t" ++ md5 ++ "\t" ++ sha512 ++
    "\t" ++ filename ++ "\n"

/-- The cache-miss path of get_hashes: compute both digests (the streaming
calculate_hashes is external file reading, modeled by the hashFn
parameter), store them in the in-memory cache, and append one cache line. -/
def hashMiss (hashFn : String → String × String) (st : HState) (filename : String)
    (size timestamp : Int) : (String × String) × HState :=
  let h := hashFn filename
  ((h.1, h.2),
   { cache := updateA st.cache filename (size, timestamp, h.1, h.2),
     lines := st.lines ++ [cacheLine size timestamp h.1 h.2 filename],
     computes := st.computes + 1 })

/-- FileHasher.get_hashes (lines 412-424): a cache hit needs the exact size
and timestamp; anything else recomputes and appends. -/
def get_hashes (hashFn : String → String × String) (st : HState) (filename : String)
    (size timestamp : Int) : (String × String) × HState :=
  match lookupA st.cache filename with
  | some c =>
    if size = c.1 ∧ timestamp = c.2.1 then ((c.2.2.1, c.2.2.2), st)
    else hashMiss hashFn st filename size timestamp
  | none => hashMiss hashFn st filename size timestamp

/- ## SafeWriter (ifmap.py lines 439-458) -/

/-- A flat file system: paths mapped to file contents. -/
abbrev FS := List (String × String)

/-- Read a file. -/
def fsGet (fs : FS) (p : String) : Option String := lookupA fs p

/-- Create or overwrite a file. -/
def fsSet (fs : FS) (p c : String) : FS := updateA fs p c

/-- Remove a file. -/
def fsDel (fs : FS) (p : String) : FS := fs.eraseP (fun q => q.1 == p)

/-- SafeWriter object: the two paths and the not yet flushed stream
buffer. -/
structure SafeWriter where
  tempname : String
  finalname : String
  buf : String := ""

/-- SafeWriter.init: opening the temporary file for writing truncates or
creates it. -/
def swInit (fs : FS) (tempname finalname : String) : SafeWriter × FS :=
  ({ tempname := tempname, finalname := finalname }, fsSet fs tempname "")

/-- A write to the stream. -/
def swWrite (w : SafeWriter) (s : String) : SafeWriter := { w with buf := w.buf ++ s }

/-- Closing the stream flushes the buffer to the temporary path. -/
def swClose (w : SafeWriter) (fs : FS) : FS := fsSet fs w.tempname w.buf

/-- SafeWriter.resolve: close the stream, then os.replace moves the
temporary file over the final path. -/
def swResolve (w : SafeWriter) (fs : FS) : FS :=
  let fs2 := swClose w fs
  match fsGet fs2 w.tempname with
  | some c => fsSet (fsDel fs2 w.tempname) w.finalname c
  | none => fs2

/-- A full SafeWriter lifecycle: open, write the chunks, then either resolve
or stop after the temp write and before the rename (an interruption at the
rename boundary; an earlier interruption is the same run with fewer
chunks). -/
def swRun (fs : FS) (tempname finalname : String) (chunks : List String)
    (complete : Bool) : FS :=
  let p := swInit fs tempname finalname
  let w := chunks.foldl swWrite p.1
  if complete then swResolve w p.2 else swClose w p.2

/- ## Date listing (ifmap.py lines 1112-1168) -/

/-- The sort key of the date listing (line 1137): negated timestamp, then
the lowercased name, then the lowercased path, compared lexicographically.
Char.toLower matches the Python lower method on the ASCII names the archive
uses. -/
def dateKey (f : AFile) : Int ×ₗ List Char ×ₗ List Char :=
  toLex (-(f.date.getD 0), toLex (f.name.data.map Char.toLower, f.path.data.map Char.toLower))

/-- The list order used by the date listing sort. -/
def fileLE (a b : AFile) : Prop := dateKey a ≤ dateKey b

instance : DecidableRel fileLE :=
  fun a b => inferInstanceAs (Decidable (dateKey a ≤ dateKey b))

instance : IsTotal AFile fileLE := ⟨fun a b => le_total (dateKey a) (dateKey b)⟩

instance : IsTrans AFile fileLE := ⟨fun _ _ _ h1 h2 => le_trans h1 h2⟩

/-- The file collection and sort of generate_output_datelist (lines
1127-1137): every file of every directory that carries a date key, sorted
by dateKey. Python list.sort with a key is a stable sort and insertionSort
is stable as well, so the two agree on ties. -/
def datelistFiles (dirs : List ADir) : List AFile :=
  List.insertionSort fileLE
    (((dirs.map (fun d => d.files.map (fun p => p.2))).flatten).filter (fun f => f.date.isSome))

/-- The truncation loop of one date_N page (lines 1147-1152): walk the
sorted list and stop at the first file older than the interval; a zero
interval never stops. -/
def finalFilelist (intlen curdate : Int) : List AFile → List AFile
  | [] => []
  | f :: rest =>
    if intlen ≠ 0 ∧ f.date.getD 0 + intlen < curdate then []
    else f :: finalFilelist intlen curdate rest

/-- The sort order stated by claim C6, with name and path compared without
lowercasing. Stated from the claim text for comparison with the code
order. -/
def specFileLE (a b : AFile) : Prop :=
  (toLex (-(a.date.getD 0), toLex (a.name.data, a.path.data)) :
      Int ×ₗ List Char ×ₗ List Char)
    ≤ toLex (-(b.date.getD 0), toLex (b.name.data, b.path.data))

instance : DecidableRel specFileLE :=
  fun a b => inferInstanceAs (Decidable
    ((toLex (-(a.date.getD 0), toLex (a.name.data, a.path.data)) :
        Int ×ₗ List Char ×ₗ List Char)
      ≤ toLex (-(b.date.getD 0), toLex (b.name.data, b.path.data))))


/- ## Structural invariants of the archive tree -/

/-- Invariants every file entry of a constructed tree satisfies: the entry
is stored under its own name; a deep entry is never marked as found in the
master file (only the plain branch of the parser sets that flag); a link
entry was either created by the scanner, which marks it as found on disk,
or is a deep copy of a link; and a directory reference likewise comes from
the scanner or from a deep copy. -/
def fileInv (k : String) (f : AFile) : Prop :=
  f.name = k ∧
  (f.isdeep = true → f.inmaster = false) ∧
  (f.islink = true → f.intree = true ∨ f.isdeep = true) ∧
  (f.linkdir ≠ none → f.intree = true ∨ f.isdeep = true)

/-- The file invariants over a whole directory map. -/
def dirmapInv (dm : List (String × ADir)) : Prop :=
  ∀ p ∈ dm, ∀ q ∈ (p.2 : ADir).files, fileInv q.1 q.2

/-- The file invariants over a parser state. -/
def stateInv (st : MState) : Prop := dirmapInv st.dirmap

/- ## Concrete fixtures used by witness theorems -/

/-- A plain file entry. -/
def c3file : AFile := mkFile "foo" "if-archive" false false

/-- A root directory already holding the plain entry. -/
def c3dirA : ADir := { mkDirectory "if-archive" with files := [("foo", c3file)] }

/-- Parser state for the plain-duplicate scenario. -/
def c3stA : MState := { dirmap := [("if-archive", c3dirA)] }

/-- The target file of a deep reference. -/
def c3target : AFile := mkFile "x" "if-archive/sub" false false

/-- The subdirectory holding the deep-reference target. -/
def c3dirSub : ADir := { mkDirectory "if-archive/sub" with files := [("x", c3target)] }

/-- The already-present deep entry. -/
def c3deep : AFile := mkFile "sub/x" "if-archive" false false

/-- A root directory already holding the deep entry. -/
def c3dirB : ADir := { mkDirectory "if-archive" with files := [("sub/x", c3deep)] }

/-- Parser state for the compound-duplicate scenario. -/
def c3stB : MState := { dirmap := [("if-archive", c3dirB), ("if-archive/sub", c3dirSub)] }

/-- A fixed digest function for the hasher witness. -/
def c7hash : String → String × String := fun _ => ("m1", "s1")

/-- A hasher state holding one cached record. -/
def c7st : HState := { cache := [("f", ((1 : Int), (2 : Int), "a", "b"))] }

/-- A file symlink found on disk with no index entry. -/
def c5file : AFile := { mkFile "foo" "if-archive" false true with intree := true }

/-- A directory holding only that symlink. -/
def c5dir : ADir := { mkDirectory "if-archive" with files := [("foo", c5file)] }

/-- A dated file with a lowercase name. -/
def c6fa : AFile := { mkFile "a" "if-archive" false false with date := some 100, intree := true }

/-- A dated file with an uppercase name and the same timestamp. -/
def c6fB : AFile := { mkFile "B" "if-archive" false false with date := some 100, intree := true }

/-- A directory holding the two dated files, uppercase entry first. -/
def c6dir : ADir := { mkDirectory "if-archive" with files := [("B", c6fB), ("a", c6fa)] }

/-- The same directory with the entries in the opposite insertion order. -/
def c6dirR : ADir := { mkDirectory "if-archive" with files := [("a", c6fa), ("B", c6fB)] }

/- ## Helper lemmas -/

theorem lookupA_nil {α : Type} (k : String) : lookupA ([] : List (String × α)) k = none := rfl

theorem lookupA_cons {α : Type} (p : String × α) (l : List (String × α)) (k : String) :
    lookupA (p :: l) k = if p.1 = k then some p.2 else lookupA l k := by
  cases hb : p.1 == k with
  | true =>
    have h : p.1 = k := by simpa using hb
    simp [lookupA, List.find?, hb, h]
  | false =>
    have h : ¬ p.1 = k := by simpa using hb
    simp [lookupA, List.find?, hb, h]

theorem updateA_cons {α : Type} (p : String × α) (l : List (String × α)) (k : String) (v : α) :
    updateA (p :: l) k v = if p.1 = k then (k, v) :: l else p :: updateA l k v := by
  by_cases h : p.1 = k <;> simp [updateA, h]

theorem lookupA_updateA_self {α : Type} (l : List (String × α)) (k : String) (v : α) :
    lookupA (updateA l k v) k = some v := by
  induction l with
  | nil => simp [updateA, lookupA_cons]
  | cons p rest ih =>
    rw [updateA_cons]
    by_cases h : p.1 = k
    · simp [h, lookupA_cons]
    · simp [h, lookupA_cons, ih]

theorem lookupA_updateA_ne {α : Type} (l : List (String × α)) (k k' : String) (v : α)
    (h : k ≠ k') : lookupA (updateA l k v) k' = lookupA l k' := by
  induction l with
  | nil => simp [updateA, lookupA_cons, lookupA_nil, h]
  | cons p rest ih =>
    rw [updateA_cons]
    by_cases hp : p.1 = k
    · simp [hp, lookupA_cons, h]
    · simp [hp, lookupA_cons, ih]

theorem lookupA_eraseP_ne {α : Type} (l : List (String × α)) (k k' : String)
    (h : k ≠ k') : lookupA (l.eraseP (fun q => q.1 == k)) k' = lookupA l k' := by
  induction l with
  | nil => simp
  | cons p rest ih =>
    by_cases hp : p.1 = k
    · have hk' : p.1 ≠ k' := by rw [hp]; exact h
      simp [List.eraseP_cons, hp, lookupA_cons, hk', h]
    · simp [List.eraseP_cons, hp, lookupA_cons, ih]

/- ## Claim C1 -/

/-- C1 counterexample. The claim states that a conditional block with x
bound to integer 0 or to the empty string renders the A branch. In the
code, Template.subst appends bool(val) to the activelist, and Python bool
maps 0 and the empty string to False, so the B branch is rendered in both
cases; B differs from A. -/
theorem C1_counterexample :
    (substRun [] (templateParse "\x7b?x\x7dA\x7b:\x7dB\x7b/\x7d") [("x", .vint 0)] [true] =
      .ok ("B", [])) ∧
    (substRun [] (templateParse "\x7b?x\x7dA\x7b:\x7dB\x7b/\x7d") [("x", .vstr "")] [true] =
      .ok ("B", [])) ∧
    "B" ≠ "A" := by
  have h : templateParse "\x7b?x\x7dA\x7b:\x7dB\x7b/\x7d" =
      [.tif "x", .text "A", .telse, .text "B", .endif] := by decide
  refine ⟨?_, ?_, by decide⟩ <;>
    · rw [h]; simp [substRun, vget, truthy, emitRes, List.find?]

/-- C1 amended: with x bound to integer 0 or to the empty string the block
renders B, exactly as when x is absent or bound to boolean false; the
engine treats the Python-falsy values as no, matching its docstring and its
unit tests. -/
theorem C1_theorem :
    (substRun [] (templateParse "\x7b?x\x7dA\x7b:\x7dB\x7b/\x7d") [("x", .vint 0)] [true] =
      .ok ("B", [])) ∧
    (substRun [] (templateParse "\x7b?x\x7dA\x7b:\x7dB\x7b/\x7d") [("x", .vstr "")] [true] =
      .ok ("B", [])) ∧
    (substRun [] (templateParse "\x7b?x\x7dA\x7b:\x7dB\x7b/\x7d") [] [true] =
      .ok ("B", [])) ∧
    (substRun [] (templateParse "\x7b?x\x7dA\x7b:\x7dB\x7b/\x7d") [("x", .vbool false)] [true] =
      .ok ("B", [])) := by
  have h : templateParse "\x7b?x\x7dA\x7b:\x7dB\x7b/\x7d" =
      [.tif "x", .text "A", .telse, .text "B", .endif] := by decide
  refine ⟨?_, ?_, ?_, ?_⟩ <;>
    · rw [h]; simp [substRun, vget, truthy, emitRes, List.find?]

/- ## Claim C2 -/

/-- C2: for every file whose unbox-block metadata value is the string true,
the unbox-link preparation does not complete: the assignment flag = false
uses the undefined lowercase Python name false and raises NameError, so the
hasunboxlink flag is never computed for such a file. The claim is right
about the intent (the comment above the line says definitely no link) and
the code is wrong. -/
theorem C2_theorem (nounboxset : List String) (f : AFile)
    (h : getmetadata_string f "unbox-block" = some "true") :
    prepare_unboxlink nounboxset f = .error .nameError := by
  simp [prepare_unboxlink, h]

/-- C2 witness: a concrete zip file carrying unbox-block true. -/
theorem C2_witness :
    getmetadata_string
        { name := "foo.zip", dirname := "if-archive", path := "if-archive/foo.zip",
          metadata := [("unbox-block", ["true"])] : AFile } "unbox-block" = some "true" ∧
    prepare_unboxlink []
        { name := "foo.zip", dirname := "if-archive", path := "if-archive/foo.zip",
          metadata := [("unbox-block", ["true"])] : AFile } = .error .nameError :=
  ⟨by decide, C2_theorem []
      { name := "foo.zip", dirname := "if-archive", path := "if-archive/foo.zip",
        metadata := [("unbox-block", ["true"])] } (by decide)⟩

/- ## Claim C4 -/

/-- C4: the subdirectory-linking pass does not complete without failure
when the parent directory has no entry under the bare name of the child.
On a tree holding just the root and one child directory (which any run
with a master file but no tree scan produces), the pass dereferences the
missing parent entry and raises AttributeError instead of completing. -/
theorem C4_theorem :
    construct_subdir_pass
        [("if-archive", mkDirectory "if-archive"),
         ("if-archive/games", mkDirectory "if-archive/games")] =
      .error .attributeError := rfl

/- ## Claim C10 -/

/-- C10: a matching separator line always contains at least one of the five
separator characters, the empty line and an all-space line never match
dashline_pattern, and inside a directory block a line that strips to
nothing is kept as header or description text rather than skipped. -/
theorem C10_theorem :
    (∀ ln : List Char, dashline ln = true → ln.any dashChar = true) ∧
    (dashline [] = false) ∧
    (∀ ln : List Char, ln.all (fun c => c == ' ') = true → dashline ln = false) ∧
    (∀ (st : MState) (line : String) (dname : String),
      st.cur = some dname → rstripL line.data = [] →
      masterStep st line =
        if st.inheader then { st with headerlines := st.headerlines ++ [""] }
        else { st with inheader := false, filedesclines := st.filedesclines ++ [""] }) := by
  refine ⟨?_, rfl, ?_, ?_⟩
  · intro ln h
    simp only [dashline, Bool.and_eq_true, bne_iff_ne, ne_eq] at h
    obtain ⟨hlen, _⟩ := h
    rcases ht : ln.dropWhile (fun c => c == ' ') with _ | ⟨c, t2⟩
    · rw [ht] at hlen; simp at hlen
    · rw [ht] at hlen
      rcases hc : dashChar c with _ | _
      · rw [List.dropWhile_cons, hc] at hlen; simp at hlen
      · rw [List.any_eq_true]
        refine ⟨c, ?_, hc⟩
        have hmem : c ∈ ln.dropWhile (fun c => c == ' ') := by rw [ht]; exact List.mem_cons_self c t2
        exact (List.dropWhile_sublist _).subset hmem
  · intro ln h
    have ht : ln.dropWhile (fun c => c == ' ') = [] :=
      List.dropWhile_eq_nil_iff.mpr (fun x hx => (List.all_eq_true.mp h) x hx)
    simp [dashline, ht]
  · intro st line dname hcur hln
    rcases hih : st.inheader with _ | _
    · simp [masterStep, hln, parseDirLine, hcur, dashline, filenameLine, hih]
      rfl
    · simp [masterStep, hln, parseDirLine, hcur, dashline, filenameLine, hih]
      rfl

/-- C10 witness: dashes match and carry a separator character, blanks do
not match, and a blank line inside a block lands in the header
accumulator. -/
theorem C10_witness :
    ("---".data.any dashChar = true) ∧
    (dashline [] = false) ∧
    (dashline "   ".data = false) ∧
    (masterStep { dirmap := [("if-archive", mkDirectory "if-archive")], cur := some "if-archive" } "  " =
      { dirmap := [("if-archive", mkDirectory "if-archive")], cur := some "if-archive",
        headerlines := [""] }) := by
  refine ⟨C10_theorem.1 "---".data (by decide), C10_theorem.2.1, C10_theorem.2.2.1 "   ".data (by decide), ?_⟩
  have h := C10_theorem.2.2.2
      { dirmap := [("if-archive", mkDirectory "if-archive")], cur := some "if-archive" }
      "  " "if-archive" rfl (by decide)
  simpa using h

/- ## Claim C3 -/

/-- C3 counterexample: a master file with a plain entry name repeated in
one directory block. The claim says the second occurrence is a reported
error; the run reports nothing (no stderr diagnostic) although, as the
claim also says, no distinct second entry is created. Only the compound
branch of parse_master_index (names holding a slash) carries the
appears-twice report. -/
theorem C3_counterexample :
    (parse_master_index [("if-archive", mkDirectory "if-archive")]
        ["# if-archive:", "## foo", "desc", "## foo"]).errors = [] ∧
    ((lookupA (parse_master_index [("if-archive", mkDirectory "if-archive")]
        ["# if-archive:", "## foo", "desc", "## foo"]).dirmap "if-archive").map
      (fun d => d.files.length)) = some 1 := by
  constructor <;> decide

/-- C3 amended: in the file-block handler of parse_master_index, a
duplicate plain name (no slash) is silently merged into the existing entry,
with no error and no new entry (the existing one is only marked as found in
the master file); a duplicate compound name (with a slash, both target
directory and target file present, the target directory distinct from the
current one) is reported with the appears-twice error and the directory map
gains no entry beyond the inmaster mark on the target file. -/
theorem C3_theorem :
    (∀ (st : MState) (dname : String) (dir : ADir) (name : String) (f : AFile),
      lookupA st.dirmap dname = some dir →
      lookupA dir.files name = some f →
      name.data.contains '/' = false →
      (startFileBlock st dname dir name).errors = st.errors ∧
      (startFileBlock st dname dir name).dirmap =
        updateA st.dirmap dname
          { dir with files := updateA dir.files name ({ f with inmaster := true }) }) ∧
    (∀ (st : MState) (dname : String) (dir : ADir) (name : String) (rel : ADir)
        (rf g : AFile),
      lookupA st.dirmap dname = some dir →
      name.data.contains '/' = true →
      dname ++ "/" ++ (rpartitionSlash name.data).1.asString ≠ dname →
      lookupA st.dirmap (dname ++ "/" ++ (rpartitionSlash name.data).1.asString) = some rel →
      lookupA rel.files (rpartitionSlash name.data).2.asString = some rf →
      lookupA dir.files name = some g →
      (startFileBlock st dname dir name).errors = st.errors ++ [compoundTwiceMsg name dname] ∧
      (startFileBlock st dname dir name).dirmap =
        updateA st.dirmap (dname ++ "/" ++ (rpartitionSlash name.data).1.asString)
          { rel with files :=
              (updateA rel.files (rpartitionSlash name.data).2.asString
                ({ rf with inmaster := true })) }) := by
  constructor
  · intro st dname dir name f hdir hfile hslash
    have hmem : ¬ ('/' ∈ name.data) := by simpa using hslash
    simp [startFileBlock, hmem, hfile]
  · intro st dname dir name rel rf g hdir hslash hne hrel hrf hg
    have hmem : '/' ∈ name.data := by simpa using hslash
    have hd2 : lookupA (updateA st.dirmap
        (dname ++ "/" ++ (rpartitionSlash name.data).1.asString)
        { rel with files :=
            (updateA rel.files (rpartitionSlash name.data).2.asString
              ({ rf with inmaster := true })) }) dname = some dir := by
      rw [lookupA_updateA_ne _ _ _ _ hne, hdir]
    simp [startFileBlock, hmem, hrel, hrf, hd2, hg]

/-- C3 witness: the two branches of the amended statement at concrete
states: a repeated plain entry (no error, entry merged) and a repeated
compound entry (error reported, no new entry). -/
theorem C3_witness :
    ((startFileBlock c3stA "if-archive" c3dirA "foo").errors = c3stA.errors ∧
      (startFileBlock c3stA "if-archive" c3dirA "foo").dirmap =
        updateA c3stA.dirmap "if-archive"
          { c3dirA with files := updateA c3dirA.files "foo" ({ c3file with inmaster := true }) }) ∧
    ((startFileBlock c3stB "if-archive" c3dirB "sub/x").errors =
        c3stB.errors ++ [compoundTwiceMsg "sub/x" "if-archive"] ∧
      (startFileBlock c3stB "if-archive" c3dirB "sub/x").dirmap =
        updateA c3stB.dirmap ("if-archive" ++ "/" ++ (rpartitionSlash "sub/x".data).1.asString)
          { c3dirSub with files :=
              (updateA c3dirSub.files (rpartitionSlash "sub/x".data).2.asString
                ({ c3target with inmaster := true })) }) :=
  ⟨C3_theorem.1 c3stA "if-archive" c3dirA "foo" c3file (by decide) (by decide) (by decide),
   C3_theorem.2 c3stB "if-archive" c3dirB "sub/x" c3dirSub c3target c3deep
     (by decide) (by decide) (by decide) (by decide) (by decide) (by decide)⟩

/- ## Claim C7 -/

/-- C7: a second get_hashes call with the same path, size and timestamp
returns exactly the first result and leaves the hasher state untouched (no
digest recomputation, no appended cache line); and whenever the cached
record for the path differs in size or in timestamp, the digests are
recomputed (the computation counter steps) and one new cache line is
appended. -/
theorem C7_theorem (hashFn : String → String × String) (st : HState)
    (filename : String) (size timestamp : Int) :
    (get_hashes hashFn (get_hashes hashFn st filename size timestamp).2 filename size timestamp =
      get_hashes hashFn st filename size timestamp) ∧
    (∀ c, lookupA st.cache filename = some c → size ≠ c.1 ∨ timestamp ≠ c.2.1 →
      (get_hashes hashFn st filename size timestamp).2.computes = st.computes + 1 ∧
      (get_hashes hashFn st filename size timestamp).2.lines =
        st.lines ++ [cacheLine size timestamp (hashFn filename).1 (hashFn filename).2 filename] ∧
      (get_hashes hashFn st filename size timestamp).1 = hashFn filename) := by
  constructor
  · cases h : lookupA st.cache filename with
    | some c =>
      by_cases hm : size = c.1 ∧ timestamp = c.2.1
      · simp [get_hashes, h, hm]
      · simp [get_hashes, h, hm, hashMiss, lookupA_updateA_self]
    | none => simp [get_hashes, h, hashMiss, lookupA_updateA_self]
  · intro c hc hne
    have hm : ¬ (size = c.1 ∧ timestamp = c.2.1) := by
      rcases hne with hne | hne
      · exact fun hand => hne hand.1
      · exact fun hand => hne hand.2
    simp [get_hashes, hc, hm, hashMiss]

/-- C7 witness: a cached record with a different size forces recomputation
and an appended line, and the repeated call is then a pure cache hit. -/
theorem C7_witness :
    (get_hashes c7hash (get_hashes c7hash c7st "f" 3 2).2 "f" 3 2 =
      get_hashes c7hash c7st "f" 3 2) ∧
    ((get_hashes c7hash c7st "f" 3 2).2.computes = c7st.computes + 1 ∧
      (get_hashes c7hash c7st "f" 3 2).2.lines =
        c7st.lines ++ [cacheLine 3 2 (c7hash "f").1 (c7hash "f").2 "f"] ∧
      (get_hashes c7hash c7st "f" 3 2).1 = c7hash "f") :=
  ⟨(C7_theorem c7hash c7st "f" 3 2).1,
   (C7_theorem c7hash c7st "f" 3 2).2 ((1 : Int), (2 : Int), "a", "b") (by decide)
     (Or.inl (by decide))⟩

/- ## Claim C8 -/

theorem foldl_swWrite_parts (chunks : List String) (w : SafeWriter) :
    (chunks.foldl swWrite w).buf = chunks.foldl (fun a s => a ++ s) w.buf ∧
    (chunks.foldl swWrite w).tempname = w.tempname ∧
    (chunks.foldl swWrite w).finalname = w.finalname := by
  induction chunks generalizing w with
  | nil => exact ⟨rfl, rfl, rfl⟩
  | cons c cs ih => exact ih (swWrite w c)

theorem swRun_false_eq (fs : FS) (temp final : String) (chunks : List String) :
    swRun fs temp final chunks false =
      fsSet (fsSet fs temp "") temp (chunks.foldl (fun a s => a ++ s) "") := by
  have h := foldl_swWrite_parts chunks { tempname := temp, finalname := final, buf := "" }
  simp [swRun, swInit, swClose, h.1, h.2.1]

theorem swRun_true_eq (fs : FS) (temp final : String) (chunks : List String) :
    swRun fs temp final chunks true =
      fsSet (fsDel (fsSet (fsSet fs temp "") temp (chunks.foldl (fun a s => a ++ s) ""))
        temp) final (chunks.foldl (fun a s => a ++ s) "") := by
  have h := foldl_swWrite_parts chunks { tempname := temp, finalname := final, buf := "" }
  simp [swRun, swInit, swResolve, swClose, h.1, h.2.1, h.2.2, fsGet, fsSet,
    lookupA_updateA_self]

/-- C8: a SafeWriter run that stops at the interruption point between the
temp-file write and the rename leaves the final path exactly as it was; a
completed run leaves the final path holding exactly the concatenation of
the written chunks; and in either case every path other than the temp and
final paths is untouched, so all writing happens through the temporary
path only. -/
theorem C8_theorem (fs : FS) (temp final : String) (chunks : List String)
    (h : temp ≠ final) :
    (fsGet (swRun fs temp final chunks false) final = fsGet fs final) ∧
    (fsGet (swRun fs temp final chunks true) final =
      some (chunks.foldl (fun a s => a ++ s) "")) ∧
    (∀ p, p ≠ temp → p ≠ final → ∀ b,
      fsGet (swRun fs temp final chunks b) p = fsGet fs p) := by
  refine ⟨?_, ?_, ?_⟩
  · rw [swRun_false_eq]
    simp only [fsGet, fsSet, fsDel]
    rw [lookupA_updateA_ne _ _ _ _ h, lookupA_updateA_ne _ _ _ _ h]
  · rw [swRun_true_eq]
    simp only [fsGet, fsSet, fsDel]
    rw [lookupA_updateA_self]
  · intro p hpt hpf b
    cases b
    · rw [swRun_false_eq]
      simp only [fsGet, fsSet, fsDel]
      rw [lookupA_updateA_ne _ _ _ _ (Ne.symm hpt), lookupA_updateA_ne _ _ _ _ (Ne.symm hpt)]
    · rw [swRun_true_eq]
      simp only [fsGet, fsSet, fsDel]
      rw [lookupA_updateA_ne _ _ _ _ (Ne.symm hpf), lookupA_eraseP_ne _ _ _ (Ne.symm hpt),
        lookupA_updateA_ne _ _ _ _ (Ne.symm hpt), lookupA_updateA_ne _ _ _ _ (Ne.symm hpt)]

/-- C8 witness: over a file system holding old content at the destination,
the interrupted run preserves it, the completed run replaces it with the
written chunks, and an unrelated path never changes. -/
theorem C8_witness :
    (fsGet (swRun [("out.html", "old")] "__temp" "out.html" ["a", "b"] false) "out.html" =
      fsGet [("out.html", "old")] "out.html") ∧
    (fsGet (swRun [("out.html", "old")] "__temp" "out.html" ["a", "b"] true) "out.html" =
      some (["a", "b"].foldl (fun a s => a ++ s) "")) ∧
    (fsGet (swRun [("out.html", "old")] "__temp" "out.html" ["a", "b"] true) "other" =
      fsGet [("out.html", "old")] "other") := by
  have h := C8_theorem [("out.html", "old")] "__temp" "out.html" ["a", "b"] (by decide)
  exact ⟨h.1, h.2.1, h.2.2 "other" (by decide) (by decide) true⟩

/- ## Claim C5 -/

theorem checkDirStep_eq (noindex : List String) (d : ADir) (acc : List String × List String) :
    checkDirStep noindex acc d =
      (acc.1 ++ ((d.files.map Prod.snd).filter fileMissingCond).map (missingMsg d),
       acc.2 ++ ((d.files.map Prod.snd).filter (fileOrphanCond noindex)).map orphanMsg) := by
  show d.files.foldl _ acc = _
  generalize d.files = fs
  induction fs generalizing acc with
  | nil => simp
  | cons p rest ih =>
    by_cases h1 : fileMissingCond p.2 <;> by_cases h2 : fileOrphanCond noindex p.2 <;>
      simp [List.foldl_cons, h1, h2, ih]

theorem check_missing_files_eq (noindex : List String) (dirs : List ADir) :
    check_missing_files noindex dirs =
      ((dirs.map (fun d =>
          ((d.files.map Prod.snd).filter fileMissingCond).map (missingMsg d))).flatten,
       (dirs.map (fun d =>
          ((d.files.map Prod.snd).filter (fileOrphanCond noindex)).map orphanMsg)).flatten) := by
  show dirs.foldl _ ([], []) = _
  have h : ∀ acc : List String × List String,
      dirs.foldl (checkDirStep noindex) acc =
        (acc.1 ++ (dirs.map (fun d =>
            ((d.files.map Prod.snd).filter fileMissingCond).map (missingMsg d))).flatten,
         acc.2 ++ (dirs.map (fun d =>
            ((d.files.map Prod.snd).filter (fileOrphanCond noindex)).map orphanMsg)).flatten) := by
    induction dirs with
    | nil => intro acc; simp
    | cons d rest ih =>
      intro acc
      rw [List.foldl_cons, ih, checkDirStep_eq]
      simp
  simpa using h ([], [])

/-- C5 amended. Under the invariants the scanner and parser establish (a
link entry was created by the scanner, which marks it as found on disk, or
is a deep copy of one, which is never marked as found in the description;
a deep entry is never marked as found in the description; a
directory-valued entry is either found on disk or not in the description),
the
missing-file reports are exactly the entries found in the description but
not on disk that are neither links nor deep references, as the claim says.
The orphan-file reports, however, are exactly the entries found on disk but
not in the description that carry no directory reference and are not
prefix-matched by the ignore list - file symlinks are reported, against the
claim. An entry carrying both found flags is reported in neither list. -/
theorem C5_theorem (noindex : List String) (dirs : List ADir)
    (hlink : ∀ d ∈ dirs, ∀ p ∈ d.files, (p.2 : AFile).islink = true →
      (p.2 : AFile).intree = true ∨ (p.2 : AFile).inmaster = false)
    (hdeep : ∀ d ∈ dirs, ∀ p ∈ d.files, (p.2 : AFile).isdeep = true → (p.2 : AFile).inmaster = false)
    (hldir : ∀ d ∈ dirs, ∀ p ∈ d.files, (p.2 : AFile).linkdir ≠ none →
      (p.2 : AFile).intree = true ∨ (p.2 : AFile).inmaster = false) :
    ((check_missing_files noindex dirs).1 =
      (dirs.map (fun d =>
        ((d.files.map Prod.snd).filter
          (fun f => f.inmaster && !f.intree && !f.islink && !f.isdeep)).map
            (missingMsg d))).flatten) ∧
    ((check_missing_files noindex dirs).2 =
      (dirs.map (fun d =>
        ((d.files.map Prod.snd).filter (fileOrphanCond noindex)).map orphanMsg)).flatten) ∧
    (∀ f : AFile, f.inmaster = true → f.intree = true →
      fileMissingCond f = false ∧ fileOrphanCond noindex f = false) := by
  refine ⟨?_, ?_, ?_⟩
  · rw [check_missing_files_eq]
    dsimp only
    congr 1
    refine List.map_congr_left ?_
    intro d hd
    congr 1
    refine List.filter_congr ?_
    intro f hf
    obtain ⟨p, hp, hpf⟩ := List.mem_map.mp hf
    have hl := hlink d hd p hp
    have hq := hdeep d hd p hp
    have hn := hldir d hd p hp
    rw [hpf] at hl hq hn
    cases hm : f.inmaster with
    | false => simp [fileMissingCond, hm]
    | true =>
      cases ht : f.intree with
      | true => simp [fileMissingCond, hm, ht]
      | false =>
        have h1 : f.islink = false := by
          cases hli : f.islink
          · rfl
          · rcases hl hli with hx | hx
            · rw [hx] at ht; exact Bool.noConfusion ht
            · rw [hx] at hm; exact Bool.noConfusion hm
        have h2 : f.isdeep = false := by
          cases hdi : f.isdeep
          · rfl
          · rw [hq hdi] at hm; exact Bool.noConfusion hm
        have h3 : f.linkdir.isNone = true := by
          cases hni : f.linkdir with
          | none => rfl
          | some v =>
            rcases hn (by simp [hni]) with hx | hx
            · rw [hx] at ht; exact Bool.noConfusion ht
            · rw [hx] at hm; exact Bool.noConfusion hm
        simp [fileMissingCond, hm, ht, h1, h2, h3]
  · rw [check_missing_files_eq]
  · intro f hm ht
    constructor <;> simp [fileMissingCond, fileOrphanCond, hm, ht]

/-- C5 counterexample: a symlink to a file, found on disk with no index
entry. The code reports it as a file without index entry, while the claim
(entries that are not links) says it is not reported; the two lists
differ. -/
theorem C5_counterexample :
    ((check_missing_files []
        [{ mkDirectory "if-archive" with
            files := [("foo", { mkFile "foo" "if-archive" false true with intree := true })] }]).2 =
      ["File without index entry: if-archive/foo"]) ∧
    ((([("foo", ({ mkFile "foo" "if-archive" false true with intree := true } : AFile))].map
        Prod.snd).filter (claimOrphanCond [])).map orphanMsg = []) ∧
    (["File without index entry: if-archive/foo"] ≠ ([] : List String)) := by
  refine ⟨by decide, by decide, by decide⟩

/-- C5 witness: the amended statement at a concrete one-directory tree that
satisfies the invariants. -/
theorem C5_witness :
    ((check_missing_files [] [c5dir]).1 =
      ([c5dir].map (fun d =>
        ((d.files.map Prod.snd).filter
          (fun f => f.inmaster && !f.intree && !f.islink && !f.isdeep)).map
            (missingMsg d))).flatten) ∧
    ((check_missing_files [] [c5dir]).2 =
      ([c5dir].map (fun d =>
        ((d.files.map Prod.snd).filter (fileOrphanCond [])).map orphanMsg)).flatten) ∧
    (∀ f : AFile, f.inmaster = true → f.intree = true →
      fileMissingCond f = false ∧ fileOrphanCond [] f = false) :=
  C5_theorem [] [c5dir] (by decide) (by decide) (by decide)

/- ## Claim C6 -/

theorem fileLE_date_ge {a b : AFile} (h : fileLE a b) : b.date.getD 0 ≤ a.date.getD 0 := by
  rcases (Prod.Lex.le_iff _ _).mp h with h1 | ⟨h1, _⟩
  · omega
  · omega

theorem fileLE_antisymm_key {a b : AFile} (h1 : fileLE a b) (h2 : fileLE b a) :
    dateKey a = dateKey b := le_antisymm h1 h2

/-- Two sorted permutations of each other agree when the order is
antisymmetric on the members of the first list. -/
theorem eq_of_perm_sorted_antisymmOn {α : Type} {R : α → α → Prop} :
    ∀ (l₁ l₂ : List α), l₁.Perm l₂ → l₁.Sorted R → l₂.Sorted R →
      (∀ a ∈ l₁, ∀ b ∈ l₁, R a b → R b a → a = b) → l₁ = l₂
  | [], l₂, hp, _, _, _ => (hp.symm.eq_nil).symm
  | a :: t₁, [], hp, _, _, _ => absurd hp.eq_nil (by simp)
  | a :: t₁, b :: t₂, hp, hs₁, hs₂, hanti => by
    by_cases hab : a = b
    · subst hab
      have ht := eq_of_perm_sorted_antisymmOn t₁ t₂ hp.cons_inv hs₁.of_cons hs₂.of_cons
        (fun x hx y hy hxy hyx => hanti x (List.mem_cons_of_mem a hx)
          y (List.mem_cons_of_mem a hy) hxy hyx)
      rw [ht]
    · exfalso
      have hbmem : b ∈ a :: t₁ := hp.symm.subset (List.mem_cons_self b t₂)
      have hbt : b ∈ t₁ := by
        rcases List.mem_cons.mp hbmem with h | h
        · exact absurd h.symm hab
        · exact h
      have hamem : a ∈ b :: t₂ := hp.subset (List.mem_cons_self a t₁)
      have hat : a ∈ t₂ := by
        rcases List.mem_cons.mp hamem with h | h
        · exact absurd h hab
        · exact h
      have hRab : R a b := List.rel_of_sorted_cons hs₁ b hbt
      have hRba : R b a := List.rel_of_sorted_cons hs₂ a hat
      exact hab (hanti a (List.mem_cons_self a t₁) b hbmem hRab hRba)

theorem finalFilelist_zero (curdate : Int) (l : List AFile) :
    finalFilelist 0 curdate l = l := by
  induction l with
  | nil => rfl
  | cons f t ih => simp [finalFilelist, ih]

theorem finalFilelist_prefix (intlen curdate : Int) (l : List AFile) :
    ∃ rest, l = finalFilelist intlen curdate l ++ rest := by
  induction l with
  | nil => exact ⟨[], rfl⟩
  | cons f t ih =>
    by_cases h : intlen ≠ 0 ∧ f.date.getD 0 + intlen < curdate
    · exact ⟨f :: t, by simp [finalFilelist, h]⟩
    · obtain ⟨rest, hrest⟩ := ih
      exact ⟨rest, by simp [finalFilelist, h]; exact hrest⟩

theorem finalFilelist_filter (intlen curdate : Int) (hlen : intlen ≠ 0) :
    ∀ l : List AFile, l.Sorted fileLE →
      finalFilelist intlen curdate l =
        l.filter (fun f => decide (curdate ≤ f.date.getD 0 + intlen))
  | [], _ => rfl
  | f :: t, hs => by
    by_cases h : f.date.getD 0 + intlen < curdate
    · have hstop : intlen ≠ 0 ∧ f.date.getD 0 + intlen < curdate := ⟨hlen, h⟩
      have hrest : t.filter (fun f => decide (curdate ≤ f.date.getD 0 + intlen)) = [] := by
        refine List.filter_eq_nil_iff.mpr ?_
        intro b hb
        have hd := fileLE_date_ge (List.rel_of_sorted_cons hs b hb)
        simp only [decide_eq_true_eq]
        omega
      simp [finalFilelist, hstop, List.filter_cons, show ¬ (curdate ≤ f.date.getD 0 + intlen) by omega, hrest]
    · have hgo : ¬ (intlen ≠ 0 ∧ f.date.getD 0 + intlen < curdate) := fun hx => h hx.2
      rw [finalFilelist, if_neg hgo, List.filter_cons,
        finalFilelist_filter intlen curdate hlen t hs.of_cons]
      simp [show curdate ≤ f.date.getD 0 + intlen by omega]

/-- C6 amended: the date listing holds exactly the entries carrying a
recorded modification time; it is sorted by timestamp descending with the
lowercased name and then the lowercased path as ascending tie-breaks; the
output is the same no matter in which order the entries were inserted,
provided no two entries share all three key components; and each
time-windowed variant is the prefix of the sorted list truncated at the
first entry older than the window (equivalently, exactly its recent
entries), the zero window meaning no truncation. -/
theorem C6_theorem (dirs dirsR : List ADir) (intlen curdate : Int)
    (hperm : ((dirs.map (fun d => d.files.map (fun p => p.2))).flatten).Perm
             ((dirsR.map (fun d => d.files.map (fun p => p.2))).flatten))
    (hinj : ∀ a ∈ (dirs.map (fun d => d.files.map (fun p => p.2))).flatten,
            ∀ b ∈ (dirs.map (fun d => d.files.map (fun p => p.2))).flatten,
            dateKey a = dateKey b → a = b) :
    (∀ f, f ∈ datelistFiles dirs ↔
      (f ∈ (dirs.map (fun d => d.files.map (fun p => p.2))).flatten ∧ f.date.isSome)) ∧
    List.Sorted fileLE (datelistFiles dirs) ∧
    datelistFiles dirs = datelistFiles dirsR ∧
    (∃ rest, datelistFiles dirs = finalFilelist intlen curdate (datelistFiles dirs) ++ rest) ∧
    (intlen ≠ 0 → finalFilelist intlen curdate (datelistFiles dirs) =
      (datelistFiles dirs).filter (fun f => decide (curdate ≤ f.date.getD 0 + intlen))) ∧
    finalFilelist 0 curdate (datelistFiles dirs) = datelistFiles dirs := by
  have hsorted : List.Sorted fileLE (datelistFiles dirs) :=
    List.sorted_insertionSort fileLE _
  have hsortedR : List.Sorted fileLE (datelistFiles dirsR) :=
    List.sorted_insertionSort fileLE _
  refine ⟨?_, hsorted, ?_, ?_, ?_, finalFilelist_zero curdate _⟩
  · intro f
    rw [datelistFiles, List.mem_insertionSort, List.mem_filter]
  · have hpermF : (((dirs.map (fun d => d.files.map (fun p => p.2))).flatten).filter
        (fun f => f.date.isSome)).Perm
        (((dirsR.map (fun d => d.files.map (fun p => p.2))).flatten).filter
        (fun f => f.date.isSome)) := hperm.filter _
    have hp2 : (datelistFiles dirs).Perm (datelistFiles dirsR) :=
      ((List.perm_insertionSort fileLE _).trans hpermF).trans
        (List.perm_insertionSort fileLE _).symm
    refine eq_of_perm_sorted_antisymmOn _ _ hp2 hsorted hsortedR ?_
    intro a ha b hb hab hba
    have hamem : a ∈ (dirs.map (fun d => d.files.map (fun p => p.2))).flatten :=
      List.mem_of_mem_filter ((List.perm_insertionSort fileLE _).subset ha)
    have hbmem : b ∈ (dirs.map (fun d => d.files.map (fun p => p.2))).flatten :=
      List.mem_of_mem_filter ((List.perm_insertionSort fileLE _).subset hb)
    exact hinj a hamem b hbmem (fileLE_antisymm_key hab hba)
  · exact finalFilelist_prefix intlen curdate _
  · intro hlen
    exact finalFilelist_filter intlen curdate hlen _ hsorted

/-- C6 counterexample: two files with one timestamp, names a and B. The
code sorts by the lowercased name, putting a before B; under the order the
claim states (name ascending, without lowercasing) B precedes a, so the
produced listing is not sorted the way the claim says. -/
theorem C6_counterexample :
    datelistFiles [c6dir] = [c6fa, c6fB] ∧
    ¬ List.Sorted specFileLE [c6fa, c6fB] := by
  constructor
  · decide
  · decide

/-- C6 witness: the amended statement at a concrete pair of trees holding
the same two dated files in opposite insertion orders, with a nonzero and
a zero window. -/
theorem C6_witness :
    (∀ f, f ∈ datelistFiles [c6dir] ↔
      (f ∈ (([c6dir].map (fun d => d.files.map (fun p => p.2))).flatten) ∧ f.date.isSome)) ∧
    List.Sorted fileLE (datelistFiles [c6dir]) ∧
    datelistFiles [c6dir] = datelistFiles [c6dirR] ∧
    (∃ rest, datelistFiles [c6dir] = finalFilelist 1000 600 (datelistFiles [c6dir]) ++ rest) ∧
    ((1000 : Int) ≠ 0 → finalFilelist 1000 600 (datelistFiles [c6dir]) =
      (datelistFiles [c6dir]).filter (fun f => decide ((600 : Int) ≤ f.date.getD 0 + 1000))) ∧
    finalFilelist 0 600 (datelistFiles [c6dir]) = datelistFiles [c6dir] :=
  C6_theorem [c6dir] [c6dirR] 1000 600 (by decide) (by decide)

/- ## Claim C9 -/

theorem substRun_nil (flt : Filters) (map : VMap) (active : List Bool) :
    substRun flt [] map active = .ok ("", []) := by
  rw [substRun.eq_def]

theorem substRun_emptyActive (flt : Filters) (tag : Tag) (rest : List Tag) (map : VMap) :
    substRun flt (tag :: rest) map [] = .error .indexError := by
  rw [substRun.eq_def]

theorem substRun_text (flt : Filters) (s : String) (rest : List Tag) (map : VMap)
    (a : Bool) (ar : List Bool) :
    substRun flt (.text s :: rest) map (a :: ar) =
      if a then emitRes s [] (substRun flt rest map (a :: ar))
      else substRun flt rest map (a :: ar) := by
  rw [substRun.eq_def]

theorem substRun_var_skip (flt : Filters) (name : String) (fargs : List String)
    (rest : List Tag) (map : VMap) (ar : List Bool) :
    substRun flt (.var name fargs :: rest) map (false :: ar) =
      substRun flt rest map (false :: ar) := by
  rw [substRun.eq_def]
  rfl

theorem substRun_var_none (flt : Filters) (name : String) (fargs : List String)
    (rest : List Tag) (map : VMap) (ar : List Bool) (h : vget map name = none) :
    substRun flt (.var name fargs :: rest) map (true :: ar) =
      emitRes "[UNKNOWN]" ["Problem: undefined brace-tag: " ++ name]
        (substRun flt rest map (true :: ar)) := by
  rw [substRun.eq_def]
  dsimp only
  rw [h]
  rfl

theorem substRun_var_func (flt : Filters) (name : String) (fargs : List String)
    (rest : List Tag) (map : VMap) (ar : List Bool) (out : String)
    (h : vget map name = some (.vfunc out)) :
    substRun flt (.var name fargs :: rest) map (true :: ar) =
      emitRes out
        (if fargs.isEmpty then [] else ["Problem: cannot use filters with a callable value"])
        (substRun flt rest map (true :: ar)) := by
  rw [substRun.eq_def]
  dsimp only
  rw [h]
  rfl

theorem substRun_var_str (flt : Filters) (name : String) (fargs : List String)
    (rest : List Tag) (map : VMap) (ar : List Bool) (s : String)
    (h : vget map name = some (.vstr s)) :
    substRun flt (.var name fargs :: rest) map (true :: ar) =
      emitRes (runFilters flt fargs (pyStr (.vstr s))).1
        (runFilters flt fargs (pyStr (.vstr s))).2
        (substRun flt rest map (true :: ar)) := by
  rw [substRun.eq_def]
  dsimp only
  rw [h]
  rfl

theorem substRun_var_int (flt : Filters) (name : String) (fargs : List String)
    (rest : List Tag) (map : VMap) (ar : List Bool) (n : Int)
    (h : vget map name = some (.vint n)) :
    substRun flt (.var name fargs :: rest) map (true :: ar) =
      emitRes (runFilters flt fargs (pyStr (.vint n))).1
        (runFilters flt fargs (pyStr (.vint n))).2
        (substRun flt rest map (true :: ar)) := by
  rw [substRun.eq_def]
  dsimp only
  rw [h]
  rfl

theorem substRun_var_bool (flt : Filters) (name : String) (fargs : List String)
    (rest : List Tag) (map : VMap) (ar : List Bool) (b : Bool)
    (h : vget map name = some (.vbool b)) :
    substRun flt (.var name fargs :: rest) map (true :: ar) =
      emitRes (runFilters flt fargs (pyStr (.vbool b))).1
        (runFilters flt fargs (pyStr (.vbool b))).2
        (substRun flt rest map (true :: ar)) := by
  rw [substRun.eq_def]
  dsimp only
  rw [h]
  rfl

theorem substRun_var_list (flt : Filters) (name : String) (fargs : List String)
    (rest : List Tag) (map : VMap) (ar : List Bool) (items : List Value)
    (h : vget map name = some (.vlist items)) :
    substRun flt (.var name fargs :: rest) map (true :: ar) =
      emitRes "[NOT-PRINTABLE]" ["Problem: unprintable brace-tag type: " ++ name]
        (substRun flt rest map (true :: ar)) := by
  rw [substRun.eq_def]
  dsimp only
  rw [h]
  rfl

theorem substRun_var_dict (flt : Filters) (name : String) (fargs : List String)
    (rest : List Tag) (map : VMap) (ar : List Bool) (pairs : List (String × Value))
    (h : vget map name = some (.vdict pairs)) :
    substRun flt (.var name fargs :: rest) map (true :: ar) =
      emitRes "[NOT-PRINTABLE]" ["Problem: unprintable brace-tag type: " ++ name]
        (substRun flt rest map (true :: ar)) := by
  rw [substRun.eq_def]
  dsimp only
  rw [h]
  rfl

theorem substRun_tif (flt : Filters) (name : String) (rest : List Tag) (map : VMap)
    (a : Bool) (ar : List Bool) :
    substRun flt (.tif name :: rest) map (a :: ar) =
      if !a then substRun flt rest map (false :: a :: ar)
      else substRun flt rest map (truthy (vget map name) :: a :: ar) := by
  rw [substRun.eq_def]

theorem substRun_telse_single (flt : Filters) (rest : List Tag) (map : VMap) (a : Bool) :
    substRun flt (.telse :: rest) map [a] = substRun flt rest map [!a] := by
  rw [substRun.eq_def]

theorem substRun_telse_multi (flt : Filters) (rest : List Tag) (map : VMap)
    (a b : Bool) (ar : List Bool) :
    substRun flt (.telse :: rest) map (a :: b :: ar) =
      substRun flt rest map ((if b then !a else a) :: b :: ar) := by
  rw [substRun.eq_def]

theorem substRun_endif (flt : Filters) (rest : List Tag) (map : VMap)
    (a : Bool) (ar : List Bool) :
    substRun flt (.endif :: rest) map (a :: ar) = substRun flt rest map ar := by
  rw [substRun.eq_def]

theorem substRun_endrep (flt : Filters) (rest : List Tag) (map : VMap)
    (a : Bool) (ar : List Bool) :
    substRun flt (.endrep :: rest) map (a :: ar) = substRun flt rest map ar := by
  rw [substRun.eq_def]

theorem substRun_rep_skip (flt : Filters) (name : String) (oargs : Option Nat)
    (rest : List Tag) (map : VMap) (ar : List Bool) :
    substRun flt (.rep name oargs :: rest) map (false :: ar) =
      substRun flt rest map (false :: false :: ar) := by
  rw [substRun.eq_def]
  rfl

theorem substRun_rep_none (flt : Filters) (name : String) (oargs : Option Nat)
    (rest : List Tag) (map : VMap) (ar : List Bool) (h : vget map name = none) :
    substRun flt (.rep name oargs :: rest) map (true :: ar) =
      emitRes "[UNKNOWN]" ["Problem: undefined brace-tag: " ++ name]
        (substRun flt rest map (false :: true :: ar)) := by
  rw [substRun.eq_def]
  dsimp only
  rw [h]
  rfl

theorem substRun_rep_list (flt : Filters) (name : String) (k : Nat)
    (rest : List Tag) (map : VMap) (ar : List Bool) (items : List Value)
    (h : vget map name = some (.vlist items)) :
    substRun flt (.rep name (some k) :: rest) map (true :: ar) =
      combineRes
        (seqRuns ((listOverlays name true items).map
          (fun ov => substRun flt (rest.take (k - 1)) (ov ++ map) [true])))
        (substRun flt rest map (false :: true :: ar)) := by
  rw [substRun.eq_def]
  dsimp only
  rw [h]
  rfl

theorem substRun_rep_dict (flt : Filters) (name : String) (k : Nat)
    (rest : List Tag) (map : VMap) (ar : List Bool) (pairs : List (String × Value))
    (h : vget map name = some (.vdict pairs)) :
    substRun flt (.rep name (some k) :: rest) map (true :: ar) =
      combineRes
        (seqRuns ((dictOverlays name true pairs).map
          (fun ov => substRun flt (rest.take (k - 1)) (ov ++ map) [true])))
        (substRun flt rest map (false :: true :: ar)) := by
  rw [substRun.eq_def]
  dsimp only
  rw [h]
  rfl

theorem substRun_rep_str (flt : Filters) (name : String) (oargs : Option Nat)
    (rest : List Tag) (map : VMap) (ar : List Bool) (s : String)
    (h : vget map name = some (.vstr s)) :
    substRun flt (.rep name oargs :: rest) map (true :: ar) =
      emitRes "[NOT-REPEATABLE]" ["Problem: unrepeatable tag type: " ++ name]
        (substRun flt rest map (false :: true :: ar)) := by
  rw [substRun.eq_def]
  dsimp only
  rw [h]
  rfl

theorem substRun_rep_int (flt : Filters) (name : String) (oargs : Option Nat)
    (rest : List Tag) (map : VMap) (ar : List Bool) (n : Int)
    (h : vget map name = some (.vint n)) :
    substRun flt (.rep name oargs :: rest) map (true :: ar) =
      emitRes "[NOT-REPEATABLE]" ["Problem: unrepeatable tag type: " ++ name]
        (substRun flt rest map (false :: true :: ar)) := by
  rw [substRun.eq_def]
  dsimp only
  rw [h]
  rfl

theorem substRun_rep_bool (flt : Filters) (name : String) (oargs : Option Nat)
    (rest : List Tag) (map : VMap) (ar : List Bool) (b : Bool)
    (h : vget map name = some (.vbool b)) :
    substRun flt (.rep name oargs :: rest) map (true :: ar) =
      emitRes "[NOT-REPEATABLE]" ["Problem: unrepeatable tag type: " ++ name]
        (substRun flt rest map (false :: true :: ar)) := by
  rw [substRun.eq_def]
  dsimp only
  rw [h]
  rfl

theorem substRun_rep_func (flt : Filters) (name : String) (oargs : Option Nat)
    (rest : List Tag) (map : VMap) (ar : List Bool) (out : String)
    (h : vget map name = some (.vfunc out)) :
    substRun flt (.rep name oargs :: rest) map (true :: ar) =
      emitRes "[NOT-REPEATABLE]" ["Problem: unrepeatable tag type: " ++ name]
        (substRun flt rest map (false :: true :: ar)) := by
  rw [substRun.eq_def]
  dsimp only
  rw [h]
  rfl

theorem wfT_nil : wfT [] = true := by rw [wfT.eq_def]

theorem wfT_cons_text (s : String) (rest : List Tag) : wfT (.text s :: rest) = wfT rest := by
  rw [wfT.eq_def]

theorem wfT_cons_var (name : String) (fargs : List String) (rest : List Tag) :
    wfT (.var name fargs :: rest) = wfT rest := by
  rw [wfT.eq_def]

theorem wfT_cons_tif (name : String) (rest : List Tag) : wfT (.tif name :: rest) = wfT rest := by
  rw [wfT.eq_def]

theorem wfT_cons_telse (rest : List Tag) : wfT (.telse :: rest) = wfT rest := by
  rw [wfT.eq_def]

theorem wfT_cons_endif (rest : List Tag) : wfT (.endif :: rest) = wfT rest := by
  rw [wfT.eq_def]

theorem wfT_cons_endrep (rest : List Tag) : wfT (.endrep :: rest) = wfT rest := by
  rw [wfT.eq_def]

theorem wfT_cons_rep_none (name : String) (rest : List Tag) :
    wfT (.rep name none :: rest) = false := by
  rw [wfT.eq_def]

theorem wfT_cons_rep_some (name : String) (k : Nat) (rest : List Tag) :
    wfT (.rep name (some k) :: rest) =
      (depthOk 1 (rest.take (k-1)) && wfT (rest.take (k-1)) && wfT rest) := by
  rw [wfT.eq_def]

theorem isOkE_emitRes (s : String) (msgs : List String)
    (k : Except PyErr (String × List String)) : isOkE (emitRes s msgs k) = isOkE k := by
  cases k with
  | error e => rfl
  | ok r => rfl

theorem isOkE_combineRes (x y : Except PyErr (String × List String))
    (hx : isOkE x = true) (hy : isOkE y = true) : isOkE (combineRes x y) = true := by
  cases x with
  | error e => exact absurd hx (by simp [isOkE])
  | ok r1 =>
    cases y with
    | error e => exact absurd hy (by simp [isOkE])
    | ok r2 => rfl

theorem seqRuns_ok (rs : List (Except PyErr (String × List String)))
    (h : ∀ x ∈ rs, isOkE x = true) : isOkE (seqRuns rs) = true := by
  induction rs with
  | nil => rfl
  | cons x xs ih =>
    have hx := h x (List.mem_cons_self x xs)
    have hxs := ih (fun y hy => h y (List.mem_cons_of_mem x hy))
    cases x with
    | error e => exact absurd hx (by simp [isOkE])
    | ok r =>
      cases hs : seqRuns xs with
      | error e => rw [hs] at hxs; exact absurd hxs (by simp [isOkE])
      | ok r2 => simp [seqRuns, hs]; rfl

/-- No tag of a depth-safe, repeat-well-formed template can raise: the
renderer walk keeps the activelist depth equal to the tracked depth, and
every repetition body is rendered with a fresh singleton activelist under
its own recorded well-formedness. -/
theorem substRun_ok_aux (flt : Filters) :
    ∀ (n : Nat) (ls : List Tag) (map : VMap) (active : List Bool),
      ls.length ≤ n → depthOk active.length ls = true → wfT ls = true →
      isOkE (substRun flt ls map active) = true := by
  intro n
  induction n with
  | zero =>
    intro ls map active hlen hd hw
    have hnil : ls = [] := List.eq_nil_of_length_eq_zero (Nat.le_zero.mp hlen)
    subst hnil
    rw [substRun_nil]
    rfl
  | succ n ih =>
    intro ls map active hlen hd hw
    cases ls with
    | nil => rw [substRun_nil]; rfl
    | cons tag rest =>
      have hlen' : rest.length ≤ n := by
        simp only [List.length_cons] at hlen
        omega
      cases active with
      | nil =>
        exfalso
        cases tag <;> simp [depthOk] at hd
      | cons a ar =>
        cases tag with
        | text s =>
          have hw' : wfT rest = true := by rwa [wfT_cons_text] at hw
          have hd' : depthOk (a :: ar).length rest = true := by simpa [depthOk] using hd
          rw [substRun_text]
          cases a with
          | false => simpa using ih rest map (false :: ar) hlen' hd' hw'
          | true =>
            rw [if_pos rfl, isOkE_emitRes]
            exact ih rest map (true :: ar) hlen' hd' hw'
        | var name fargs =>
          have hw' : wfT rest = true := by rwa [wfT_cons_var] at hw
          have hd' : depthOk (a :: ar).length rest = true := by simpa [depthOk] using hd
          cases a with
          | false =>
            rw [substRun_var_skip]
            exact ih rest map (false :: ar) hlen' hd' hw'
          | true =>
            cases hv : vget map name with
            | none =>
              rw [substRun_var_none flt name fargs rest map ar hv, isOkE_emitRes]
              exact ih rest map (true :: ar) hlen' hd' hw'
            | some v =>
              cases v with
              | vstr s =>
                rw [substRun_var_str flt name fargs rest map ar s hv, isOkE_emitRes]
                exact ih rest map (true :: ar) hlen' hd' hw'
              | vint m =>
                rw [substRun_var_int flt name fargs rest map ar m hv, isOkE_emitRes]
                exact ih rest map (true :: ar) hlen' hd' hw'
              | vbool b =>
                rw [substRun_var_bool flt name fargs rest map ar b hv, isOkE_emitRes]
                exact ih rest map (true :: ar) hlen' hd' hw'
              | vfunc out =>
                rw [substRun_var_func flt name fargs rest map ar out hv, isOkE_emitRes]
                exact ih rest map (true :: ar) hlen' hd' hw'
              | vlist items =>
                rw [substRun_var_list flt name fargs rest map ar items hv, isOkE_emitRes]
                exact ih rest map (true :: ar) hlen' hd' hw'
              | vdict pairs =>
                rw [substRun_var_dict flt name fargs rest map ar pairs hv, isOkE_emitRes]
                exact ih rest map (true :: ar) hlen' hd' hw'
        | tif name =>
          have hw' : wfT rest = true := by rwa [wfT_cons_tif] at hw
          have hd' : depthOk ((a :: ar).length + 1) rest = true := by simpa [depthOk] using hd
          rw [substRun_tif]
          cases a with
          | false => simpa using ih rest map (false :: false :: ar) hlen' (by simpa using hd') hw'
          | true =>
            simpa using ih rest map (truthy (vget map name) :: true :: ar) hlen'
              (by simpa using hd') hw'
        | telse =>
          have hw' : wfT rest = true := by rwa [wfT_cons_telse] at hw
          have hd' : depthOk (a :: ar).length rest = true := by simpa [depthOk] using hd
          cases ar with
          | nil =>
            rw [substRun_telse_single]
            exact ih rest map [!a] hlen' (by simpa using hd') hw'
          | cons b ar2 =>
            rw [substRun_telse_multi]
            exact ih rest map ((if b then !a else a) :: b :: ar2) hlen' (by simpa using hd') hw'
        | endif =>
          have hw' : wfT rest = true := by rwa [wfT_cons_endif] at hw
          rw [substRun_endif]
          exact ih rest map ar hlen' (by simpa [depthOk] using hd) hw'
        | endrep =>
          have hw' : wfT rest = true := by rwa [wfT_cons_endrep] at hw
          rw [substRun_endrep]
          exact ih rest map ar hlen' (by simpa [depthOk] using hd) hw'
        | rep name oargs =>
          cases oargs with
          | none =>
            rw [wfT_cons_rep_none] at hw
            exact absurd hw (by simp)
          | some k =>
            rw [wfT_cons_rep_some] at hw
            simp only [Bool.and_eq_true] at hw
            obtain ⟨⟨hb1, hb2⟩, hw'⟩ := hw
            have hd' : depthOk ((a :: ar).length + 1) rest = true := by simpa [depthOk] using hd
            have hbodylen : (rest.take (k-1)).length ≤ n := by
              simp only [List.length_take]
              omega
            cases a with
            | false =>
              rw [substRun_rep_skip]
              exact ih rest map (false :: false :: ar) hlen' (by simpa using hd') hw'
            | true =>
              cases hv : vget map name with
              | none =>
                rw [substRun_rep_none flt name (some k) rest map ar hv, isOkE_emitRes]
                exact ih rest map (false :: true :: ar) hlen' (by simpa using hd') hw'
              | some v =>
                cases v with
                | vstr s =>
                  rw [substRun_rep_str flt name (some k) rest map ar s hv, isOkE_emitRes]
                  exact ih rest map (false :: true :: ar) hlen' (by simpa using hd') hw'
                | vint m =>
                  rw [substRun_rep_int flt name (some k) rest map ar m hv, isOkE_emitRes]
                  exact ih rest map (false :: true :: ar) hlen' (by simpa using hd') hw'
                | vbool b =>
                  rw [substRun_rep_bool flt name (some k) rest map ar b hv, isOkE_emitRes]
                  exact ih rest map (false :: true :: ar) hlen' (by simpa using hd') hw'
                | vfunc out =>
                  rw [substRun_rep_func flt name (some k) rest map ar out hv, isOkE_emitRes]
                  exact ih rest map (false :: true :: ar) hlen' (by simpa using hd') hw'
                | vlist items =>
                  rw [substRun_rep_list flt name k rest map ar items hv]
                  refine isOkE_combineRes _ _ ?_ ?_
                  · refine seqRuns_ok _ ?_
                    intro x hx
                    obtain ⟨ov, hov, rfl⟩ := List.mem_map.mp hx
                    exact ih (rest.take (k-1)) (ov ++ map) [true] hbodylen
                      (by simpa using hb1) hb2
                  · exact ih rest map (false :: true :: ar) hlen' (by simpa using hd') hw'
                | vdict pairs =>
                  rw [substRun_rep_dict flt name k rest map ar pairs hv]
                  refine isOkE_combineRes _ _ ?_ ?_
                  · refine seqRuns_ok _ ?_
                    intro x hx
                    obtain ⟨ov, hov, rfl⟩ := List.mem_map.mp hx
                    exact ih (rest.take (k-1)) (ov ++ map) [true] hbodylen
                      (by simpa using hb1) hb2
                  · exact ih rest map (false :: true :: ar) hlen' (by simpa using hd') hw'

/-- C9 counterexample: Template.subst can raise. On the template with an
unmatched closing tag followed by text, the endif pops the only activelist
frame and the following text tag reads the top of the now empty activelist,
which is an IndexError, so subst does not render the rest of the document
for this template and binding map. -/
theorem C9_counterexample :
    substRun [] (templateParse "\x7b/\x7dx") [] [true] = .error .indexError := by
  have h : templateParse "\x7b/\x7dx" = [.endif, .text "x"] := by decide
  rw [h, substRun_endif, substRun_emptyActive]

/-- C9 amended: provided the template is depth-safe (its closing and else
tags never outrun the open conditional and repetition frames) and every
repetition tag carries its matched offset (recursively in repetition
bodies), Template.subst never raises; a var reference that is missing or
None writes the [UNKNOWN] placeholder plus a diagnostic and the rest still
renders; a bound list or mapping under a var tag writes [NOT-PRINTABLE]
plus a diagnostic and the rest still renders; a repetition tag bound to a
string, number, boolean or callable writes [NOT-REPEATABLE] plus a
diagnostic and the rest still renders; and a repetition tag that is missing
or None writes [UNKNOWN] (not [NOT-REPEATABLE]) plus a diagnostic and the
rest still renders. -/
theorem C9_theorem :
    (∀ (flt : Filters) (ls : List Tag) (map : VMap),
      depthOk 1 ls = true → wfT ls = true →
      isOkE (substRun flt ls map [true]) = true) ∧
    (∀ (flt : Filters) (name : String) (fargs : List String) (rest : List Tag) (map : VMap),
      vget map name = none →
      substRun flt (.var name fargs :: rest) map [true] =
        emitRes "[UNKNOWN]" ["Problem: undefined brace-tag: " ++ name]
          (substRun flt rest map [true])) ∧
    (∀ (flt : Filters) (name : String) (fargs : List String) (rest : List Tag) (map : VMap)
        (items : List Value),
      vget map name = some (.vlist items) →
      substRun flt (.var name fargs :: rest) map [true] =
        emitRes "[NOT-PRINTABLE]" ["Problem: unprintable brace-tag type: " ++ name]
          (substRun flt rest map [true])) ∧
    (∀ (flt : Filters) (name : String) (fargs : List String) (rest : List Tag) (map : VMap)
        (pairs : List (String × Value)),
      vget map name = some (.vdict pairs) →
      substRun flt (.var name fargs :: rest) map [true] =
        emitRes "[NOT-PRINTABLE]" ["Problem: unprintable brace-tag type: " ++ name]
          (substRun flt rest map [true])) ∧
    (∀ (flt : Filters) (name : String) (oargs : Option Nat) (rest : List Tag) (map : VMap)
        (v : Value),
      vget map name = some v →
      (match v with
       | .vlist _ => False
       | .vdict _ => False
       | _ => True) →
      substRun flt (.rep name oargs :: rest) map [true] =
        emitRes "[NOT-REPEATABLE]" ["Problem: unrepeatable tag type: " ++ name]
          (substRun flt rest map [false, true])) ∧
    (∀ (flt : Filters) (name : String) (oargs : Option Nat) (rest : List Tag) (map : VMap),
      vget map name = none →
      substRun flt (.rep name oargs :: rest) map [true] =
        emitRes "[UNKNOWN]" ["Problem: undefined brace-tag: " ++ name]
          (substRun flt rest map [false, true])) := by
  refine ⟨?_, ?_, ?_, ?_, ?_, ?_⟩
  · intro flt ls map hd hw
    exact substRun_ok_aux flt ls.length ls map [true] le_rfl (by simpa using hd) hw
  · intro flt name fargs rest map h
    exact substRun_var_none flt name fargs rest map [] h
  · intro flt name fargs rest map items h
    exact substRun_var_list flt name fargs rest map [] items h
  · intro flt name fargs rest map pairs h
    exact substRun_var_dict flt name fargs rest map [] pairs h
  · intro flt name oargs rest map v hv hshape
    cases v with
    | vstr s => exact substRun_rep_str flt name oargs rest map [] s hv
    | vint m => exact substRun_rep_int flt name oargs rest map [] m hv
    | vbool b => exact substRun_rep_bool flt name oargs rest map [] b hv
    | vfunc out => exact substRun_rep_func flt name oargs rest map [] out hv
    | vlist items => exact absurd hshape (by simp)
    | vdict pairs => exact absurd hshape (by simp)
  · intro flt name oargs rest map h
    exact substRun_rep_none flt name oargs rest map [] h

/-- C9 witness: the amended statement exercised at concrete templates and
binding maps: a well-formed conditional template renders without an
exception, and each placeholder case fires on a one-tag template. -/
theorem C9_witness :
    (isOkE (substRun [] (templateParse "\x7b?x\x7dA\x7b/\x7dok") [] [true]) = true) ∧
    (substRun [] [.var "miss" []] [] [true] =
      emitRes "[UNKNOWN]" ["Problem: undefined brace-tag: " ++ "miss"]
        (substRun [] [] [] [true])) ∧
    (substRun [] [.var "l" []] [("l", .vlist [])] [true] =
      emitRes "[NOT-PRINTABLE]" ["Problem: unprintable brace-tag type: " ++ "l"]
        (substRun [] [] [("l", .vlist [])] [true])) ∧
    (substRun [] [.var "d" []] [("d", .vdict [])] [true] =
      emitRes "[NOT-PRINTABLE]" ["Problem: unprintable brace-tag type: " ++ "d"]
        (substRun [] [] [("d", .vdict [])] [true])) ∧
    (substRun [] [.rep "s" (some 1)] [("s", .vstr "x")] [true] =
      emitRes "[NOT-REPEATABLE]" ["Problem: unrepeatable tag type: " ++ "s"]
        (substRun [] [] [("s", .vstr "x")] [false, true])) ∧
    (substRun [] [.rep "m" (some 1)] [] [true] =
      emitRes "[UNKNOWN]" ["Problem: undefined brace-tag: " ++ "m"]
        (substRun [] [] [] [false, true])) := by
  refine ⟨?_, ?_, ?_, ?_, ?_, ?_⟩
  · refine C9_theorem.1 [] (templateParse "\x7b?x\x7dA\x7b/\x7dok") [] (by decide) ?_
    have h : templateParse "\x7b?x\x7dA\x7b/\x7dok" = [.tif "x", .text "A", .endif, .text "ok"] := by
      decide
    rw [h, wfT_cons_tif, wfT_cons_text, wfT_cons_endif, wfT_cons_text, wfT_nil]
  · exact C9_theorem.2.1 [] "miss" [] [] [] rfl
  · exact C9_theorem.2.2.1 [] "l" [] [] [("l", .vlist [])] [] rfl
  · exact C9_theorem.2.2.2.1 [] "d" [] [] [("d", .vdict [])] [] rfl
  · exact C9_theorem.2.2.2.2.1 [] "s" (some 1) [] [("s", .vstr "x")] (.vstr "x")
      rfl trivial
  · exact C9_theorem.2.2.2.2.2 [] "m" (some 1) [] [] rfl

/- ## Parser preservation of the structural invariants -/

theorem mem_updateA {α : Type} {l : List (String × α)} {k : String} {v : α}
    {q : String × α} (h : q ∈ updateA l k v) : q = (k, v) ∨ q ∈ l := by
  induction l with
  | nil => simpa [updateA] using h
  | cons p rest ih =>
    rw [updateA_cons] at h
    by_cases hp : p.1 = k
    · rw [if_pos hp] at h
      rcases List.mem_cons.mp h with h | h
      · exact Or.inl h
      · exact Or.inr (List.mem_cons_of_mem p h)
    · rw [if_neg hp] at h
      rcases List.mem_cons.mp h with h | h
      · exact Or.inr (h ▸ List.mem_cons_self p rest)
      · rcases ih h with h | h
        · exact Or.inl h
        · exact Or.inr (List.mem_cons_of_mem p h)

theorem lookupA_mem {α : Type} {l : List (String × α)} {k : String} {v : α}
    (h : lookupA l k = some v) : (k, v) ∈ l := by
  induction l with
  | nil => simp [lookupA] at h
  | cons p rest ih =>
    rw [lookupA_cons] at h
    by_cases hp : p.1 = k
    · rw [if_pos hp] at h
      have : p = (k, v) := by
        cases p
        simp only [Option.some.injEq] at h
        simp_all
      exact this ▸ List.mem_cons_self p rest
    · rw [if_neg hp] at h
      exact List.mem_cons_of_mem p (ih h)

theorem rpartitionSlash_no_slash (s : List Char) :
    ¬ ('/' ∈ (rpartitionSlash s).2) := by
  intro h
  unfold rpartitionSlash rsplitSlash at h
  rcases hd : s.reverse.dropWhile (fun c => c != '/') with _ | ⟨c, cs⟩
  · rw [hd] at h
    dsimp only at h
    have hall := List.dropWhile_eq_nil_iff.mp hd
    have hx := hall '/' (List.mem_reverse.mpr h)
    simp at hx
  · rw [hd] at h
    dsimp only at h
    have h2 : '/' ∈ s.reverse.takeWhile (fun c => c != '/') := by
      simpa using h
    have hx := List.mem_takeWhile_imp h2
    simp at hx

theorem dirmapInv_update_file {dm : List (String × ADir)} {dname : String} {dir : ADir}
    {fname : String} {f : AFile} (h : dirmapInv dm) (hdir : lookupA dm dname = some dir)
    (hf : fileInv fname f) :
    dirmapInv (updateA dm dname { dir with files := updateA dir.files fname f }) := by
  intro p hp
  rcases mem_updateA hp with hp | hp
  · intro q hq
    rw [hp] at hq
    rcases mem_updateA hq with hq | hq
    · rw [hq]; exact hf
    · exact h (dname, dir) (lookupA_mem hdir) q hq
  · exact h p hp

theorem dirmapInv_append_file {dm : List (String × ADir)} {dname : String} {dir : ADir}
    {fname : String} {f : AFile} (h : dirmapInv dm) (hdir : lookupA dm dname = some dir)
    (hf : fileInv fname f) :
    dirmapInv (updateA dm dname { dir with files := dir.files ++ [(fname, f)] }) := by
  intro p hp
  rcases mem_updateA hp with hp | hp
  · intro q hq
    rw [hp] at hq
    rcases List.mem_append.mp hq with hq | hq
    · exact h (dname, dir) (lookupA_mem hdir) q hq
    · have : q = (fname, f) := by simpa using hq
      rw [this]; exact hf
  · exact h p hp

theorem dirmapInv_update_dir {dm : List (String × ADir)} {dname : String} {dir dir' : ADir}
    (h : dirmapInv dm) (hdir : lookupA dm dname = some dir) (hfiles : dir'.files = dir.files) :
    dirmapInv (updateA dm dname dir') := by
  intro p hp
  rcases mem_updateA hp with hp | hp
  · intro q hq
    rw [hp] at hq
    dsimp only at hq
    rw [hfiles] at hq
    exact h (dname, dir) (lookupA_mem hdir) q hq
  · exact h p hp

theorem fileComplete_fileInv (k : String) (f : AFile) (ls : List String)
    (h : fileInv k f) : fileInv k (fileComplete f ls) := by
  unfold fileComplete
  by_cases he : ls.isEmpty
  · simpa [he] using h
  · simp only [he, if_false]
    obtain ⟨h1, h2, h3, h4⟩ := h
    exact ⟨h1, h2, h3, h4⟩

theorem finishFile_inv (st : MState) (h : stateInv st) : stateInv (finishFile st) := by
  unfold finishFile
  rcases hcur : st.cur with _ | dname
  · exact h
  · rcases hcf : st.curfile with _ | fname
    · exact h
    · dsimp only
      rcases hd : lookupA st.dirmap dname with _ | dir
      · exact h
      · dsimp only
        rcases hf : lookupA dir.files fname with _ | f
        · exact h
        · dsimp only
          exact dirmapInv_update_file h hd
            (fileComplete_fileInv fname f st.filedesclines
              (h (dname, dir) (lookupA_mem hd) (fname, f) (lookupA_mem hf)))

theorem finishDir_inv (st : MState) (h : stateInv st) : stateInv (finishDir st) := by
  unfold finishDir
  rcases hcur : st.cur with _ | dname
  · exact h
  · dsimp only
    have h1 := finishFile_inv st h
    rcases hd : lookupA (finishFile st).dirmap dname with _ | dir
    · exact h1
    · dsimp only
      exact dirmapInv_update_dir h1 hd rfl

theorem startDir_inv (st : MState) (dname : String) (h : stateInv st) :
    stateInv (startDir st dname) := by
  unfold startDir
  dsimp only
  have h1 := finishDir_inv st h
  rcases hd : lookupA (finishDir st).dirmap dname with _ | dir
  · intro p hp
    rcases List.mem_append.mp hp with hp | hp
    · exact h1 p hp
    · have hpd : p = (dname, mkDirectory dname) := by simpa using hp
      intro q hq
      rw [hpd] at hq
      have hmk : (mkDirectory dname).files = [] := by
        unfold mkDirectory
        rcases rsplitSlash dname.data with ⟨_ | _, _⟩ <;> rfl
      rw [hmk] at hq
      exact absurd hq (List.not_mem_nil q)
  · exact h1

theorem startFileBlock_inv (st : MState) (dname : String) (dir : ADir) (name : String)
    (h : stateInv st) (hdir : lookupA st.dirmap dname = some dir) :
    stateInv (startFileBlock st dname dir name) := by
  unfold startFileBlock
  rcases hsl : name.data.contains '/' with _ | _
  · -- plain branch
    simp only [Bool.not_false]
    rw [if_pos trivial]
    rcases hf : lookupA dir.files name with _ | f
    · dsimp only
      refine dirmapInv_append_file h hdir ⟨rfl, ?_, ?_, ?_⟩
      · intro hdeep
        exfalso
        simp [AFile.isdeep, mkFile] at hdeep
        exact absurd hdeep (by simpa using hsl)
      · intro hlk
        exfalso
        simp [mkFile] at hlk
      · intro hld
        exfalso
        simp [mkFile] at hld
    · dsimp only
      obtain ⟨h1, h2, h3, h4⟩ := h (dname, dir) (lookupA_mem hdir) (name, f) (lookupA_mem hf)
      refine dirmapInv_update_file h hdir ⟨h1, ?_, h3, h4⟩
      intro hdeep
      exfalso
      unfold AFile.isdeep at hdeep
      dsimp only at hdeep
      rw [h1, hsl] at hdeep
      exact Bool.noConfusion hdeep
  · -- deep branch
    simp only [Bool.not_true]
    rw [if_neg (fun hx => Bool.noConfusion hx)]
    rcases hrel : lookupA st.dirmap (dname ++ "/" ++ (rpartitionSlash name.data).1.asString)
      with _ | rel
    · exact h
    · dsimp only
      rcases hrf : lookupA rel.files (rpartitionSlash name.data).2.asString with _ | rf
      · exact h
      · dsimp only
        obtain ⟨g1, g2, g3, g4⟩ := h _ (lookupA_mem hrel) _ (lookupA_mem hrf)
        have hrfInv : fileInv (rpartitionSlash name.data).2.asString
            ({ rf with inmaster := true }) := by
          refine ⟨g1, ?_, g3, g4⟩
          intro hdeep
          exfalso
          unfold AFile.isdeep at hdeep
          dsimp only at hdeep
          rw [g1] at hdeep
          refine rpartitionSlash_no_slash name.data ?_
          simpa using hdeep
        have hmid := dirmapInv_update_file h hrel hrfInv
        rcases hd2 : lookupA (updateA st.dirmap
            (dname ++ "/" ++ (rpartitionSlash name.data).1.asString)
            ({ rel with
                files := updateA rel.files (rpartitionSlash name.data).2.asString
                  ({ rf with inmaster := true }) })) dname with _ | dir2
        · exact hmid
        · dsimp only
          rcases hf2 : lookupA dir2.files name with _ | f2
          · dsimp only
            refine dirmapInv_append_file hmid hd2 ⟨rfl, ?_, ?_, ?_⟩
            · intro _
              rfl
            · intro _
              right
              unfold AFile.isdeep
              dsimp only
              exact hsl
            · intro _
              right
              unfold AFile.isdeep
              dsimp only
              exact hsl
          · exact hmid

theorem masterStep_inv (st : MState) (line : String) (h : stateInv st) :
    stateInv (masterStep st line) := by
  unfold masterStep
  dsimp only
  rcases hpd : parseDirLine (rstripL line.data) with _ | dname
  · dsimp only
    rcases hcur : st.cur with _ | dname
    · exact h
    · dsimp only
      by_cases hd : dashline (rstripL line.data) = true
      · rw [if_pos hd]
        exact h
      · rw [if_neg hd]
        by_cases hh : (st.inheader && !(filenameLine (rstripL line.data))) = true
        · rw [if_pos hh]
          exact h
        · rw [if_neg hh]
          by_cases hfl : filenameLine (rstripL line.data) = true
          · rw [if_pos hfl]
            have h1 : stateInv (finishFile
                ({ st with cur := some dname, inheader := false })) :=
              finishFile_inv _ h
            rcases hdir : lookupA (finishFile
                ({ st with cur := some dname, inheader := false })).dirmap dname
              with _ | dir
            · exact h1
            · exact startFileBlock_inv _ dname dir _ h1 hdir
          · rw [if_neg hfl]
            exact h
  · exact startDir_inv st dname h

theorem foldl_masterStep_inv (lines : List String) (st : MState) (h : stateInv st) :
    stateInv (lines.foldl masterStep st) := by
  induction lines generalizing st with
  | nil => exact h
  | cons l ls ih => exact ih _ (masterStep_inv st l h)

/-- The structural invariants hold of every tree the embedded parser
produces, whatever the input lines, provided they hold of the starting
tree (in particular of the empty one and of any scanner output in which
every entry is marked as found on disk). -/
theorem parse_master_index_inv (dirmap0 : List (String × ADir)) (lines : List String)
    (h : dirmapInv dirmap0) :
    stateInv (parse_master_index dirmap0 lines) :=
  finishDir_inv _ (foldl_masterStep_inv lines { dirmap := dirmap0 } h)

/-- The three hypotheses assumed about the tree in the reconciliation
analysis follow from the parser-preserved structural invariants. -/
theorem stateInv_c5_hypotheses (st : MState) (h : stateInv st) :
    (∀ d ∈ st.dirmap.map Prod.snd, ∀ p ∈ ADir.files d, (p.2 : AFile).islink = true →
      (p.2 : AFile).intree = true ∨ (p.2 : AFile).inmaster = false) ∧
    (∀ d ∈ st.dirmap.map Prod.snd, ∀ p ∈ ADir.files d, (p.2 : AFile).isdeep = true →
      (p.2 : AFile).inmaster = false) ∧
    (∀ d ∈ st.dirmap.map Prod.snd, ∀ p ∈ ADir.files d, (p.2 : AFile).linkdir ≠ none →
      (p.2 : AFile).intree = true ∨ (p.2 : AFile).inmaster = false) := by
  refine ⟨?_, ?_, ?_⟩
  · intro d hd p hp hl
    obtain ⟨q, hq, rfl⟩ := List.mem_map.mp hd
    obtain ⟨_, h2, h3, h4⟩ := h q hq p hp
    rcases h3 hl with hx | hx
    · exact Or.inl hx
    · exact Or.inr (h2 hx)
  · intro d hd p hp hdeep
    obtain ⟨q, hq, rfl⟩ := List.mem_map.mp hd
    obtain ⟨_, h2, h3, h4⟩ := h q hq p hp
    exact h2 hdeep
  · intro d hd p hp hld
    obtain ⟨q, hq, rfl⟩ := List.mem_map.mp hd
    obtain ⟨_, h2, h3, h4⟩ := h q hq p hp
    rcases h4 hld with hx | hx
    · exact Or.inl hx
    · exact Or.inr (h2 hx)
